import Mathlib

/-!
# SimpleVector: a growable array over an owning array handle

Embedding of `src/array_ptr.h` and `src/simple_vector.h`.

* A heap block is the list of its cells; `ArrayPtr` holds `none` (the null pointer) or
  `some block`.  `ArrayPtr` cannot be copied in the source (copy constructor and copy
  assignment are deleted), so a block has one owner and is carried by value.
* `new Type[n]` leaves the cells of an arithmetic `Type` indeterminate: every allocating
  operation takes `fresh : Nat → T`, the value found in cell `i` of the new block.
* `size_t` is the 64-bit unsigned type: `2 * x` and `++x` are taken modulo `SIZE_MOD`.
  A request for more than `ALLOC_MAX` cells cannot be served and raises `bad_alloc`.
* An iterator is the offset of the pointer from `begin()`.
* `assert` failures, thrown exceptions and accesses outside a block are results
  (`Except Failure`), so that a returned value is a call that really returned.  The state
  an object is left in by a call that throws is not described.
* `std::move` on the element type is a copy (the element type is filled from `NULL`,
  an arithmetic type).
-/

/-- Modulus of `size_t` arithmetic. -/
def SIZE_MOD : Nat := 2 ^ 64

/-- Largest number of cells `new Type[n]` can provide (an object has at most
`PTRDIFF_MAX` bytes). -/
def ALLOC_MAX : Nat := 2 ^ 63 - 1

/-- Ways a call can end without returning. -/
inductive Failure where
  /-- an `assert` does not hold -/
  | assertion
  /-- the exception `std::out_of_range` thrown by `At` -/
  | out_of_range
  /-- the operator `new[]` cannot provide the block -/
  | bad_alloc
  /-- a cell outside the block is read or written -/
  | out_of_bounds
  deriving DecidableEq, Repr

/-- Store through a pointer: `*(block + i) = x`. -/
def writeCell {T : Type} (block : List T) (i : Nat) (x : T) : Except Failure (List T) :=
  if i < block.length then .ok (block.set i x) else .error .out_of_bounds

/-- Load through a pointer: `*(block + i)`. -/
def readCell {T : Type} (block : List T) (i : Nat) : Except Failure T :=
  match block.get? i with
  | some x => .ok x
  | none => .error .out_of_bounds

/-- The loop of `std::copy` / `std::move` between two blocks:
`while (n--) *d_first++ = *first++;`. -/
def copyLoop {T : Type} (src : List T) (first : Nat) :
    Nat → List T → Nat → Except Failure (List T)
  | 0, dst, _ => .ok dst
  | n + 1, dst, d_first =>
    match readCell src first with
    | .error e => .error e
    | .ok x =>
      match writeCell dst d_first x with
      | .error e => .error e
      | .ok dst1 => copyLoop src (first + 1) n dst1 (d_first + 1)

/-- Model of `std::copy(first, last, d_first)` and of `std::move(first, last, d_first)`
when the source range lies in block `src` and the destination in another block `dst`. -/
def std_copy {T : Type} (src : List T) (first last : Nat) (dst : List T) (d_first : Nat) :
    Except Failure (List T) :=
  if first ≤ last then copyLoop src first (last - first) dst d_first
  else .error .out_of_bounds

/-- The loop of `std::move` when source and destination lie in the same block: every
load sees the stores made before it. -/
def moveLoop {T : Type} : Nat → List T → Nat → Nat → Except Failure (List T)
  | 0, buf, _, _ => .ok buf
  | n + 1, buf, first, d_first =>
    match readCell buf first with
    | .error e => .error e
    | .ok x =>
      match writeCell buf d_first x with
      | .error e => .error e
      | .ok buf1 => moveLoop n buf1 (first + 1) (d_first + 1)

/-- Model of `std::move(first, last, d_first)` inside one block. -/
def std_move_within {T : Type} (buf : List T) (first last d_first : Nat) :
    Except Failure (List T) :=
  if first ≤ last then moveLoop (last - first) buf first d_first
  else .error .out_of_bounds

/-- The loop of `std::fill`: `for (; n > 0; --n) *first++ = value;`. -/
def fillLoop {T : Type} (value : T) : Nat → List T → Nat → Except Failure (List T)
  | 0, buf, _ => .ok buf
  | n + 1, buf, first =>
    match writeCell buf first value with
    | .error e => .error e
    | .ok buf1 => fillLoop value n buf1 (first + 1)

/-- Model of `std::fill(first, last, value)`. -/
def std_fill {T : Type} (buf : List T) (first last : Nat) (value : T) :
    Except Failure (List T) :=
  if first ≤ last then fillLoop value (last - first) buf first
  else .error .out_of_bounds

/-! ## `ArrayPtr` (array_ptr.h) -/

/-- The owning handle: `raw_ptr_` is `none` for `nullptr`, else the block it points to. -/
structure ArrayPtr (T : Type) where
  raw_ptr_ : Option (List T) := none
  deriving DecidableEq, Repr

namespace ArrayPtr

variable {T : Type}

/-- Models `ArrayPtr() = default`. -/
def ctor_default : ArrayPtr T := { raw_ptr_ := none }

/-- Models `explicit ArrayPtr(size_t size)`: `if (size) raw_ptr_ = new Type[size];`. -/
def ctor_size (fresh : Nat → T) (size : Nat) : Except Failure (ArrayPtr T) :=
  if size ≠ 0 then
    if size ≤ ALLOC_MAX then .ok { raw_ptr_ := some ((List.range size).map fresh) }
    else .error .bad_alloc
  else .ok { raw_ptr_ := none }

/-- Models `explicit ArrayPtr(Type* raw_ptr)`. -/
def ctor_raw (raw_ptr : Option (List T)) : ArrayPtr T := { raw_ptr_ := raw_ptr }

/-- Models `Release()`: the returned pointer and the handle afterwards. -/
def Release (p : ArrayPtr T) : Option (List T) × ArrayPtr T :=
  let ptr := p.raw_ptr_
  (ptr, { raw_ptr_ := none })

/-- Models `Get()`. -/
def Get (p : ArrayPtr T) : Option (List T) := p.raw_ptr_

/-- Models `explicit operator bool()`. -/
def toBool (p : ArrayPtr T) : Bool :=
  match p.raw_ptr_ with
  | none => false
  | some _ => true

/-- Models `swap(ArrayPtr& other)`: the two handles afterwards, `this` first. -/
def swap (p other : ArrayPtr T) : ArrayPtr T × ArrayPtr T := (other, p)

/-- Cells reachable from `Get()`: none from the null pointer. -/
def cells (p : ArrayPtr T) : List T :=
  match p.raw_ptr_ with
  | none => []
  | some block => block

/-- The handle after the cells of its block were overwritten with `cs`. -/
def store (p : ArrayPtr T) (cs : List T) : ArrayPtr T :=
  match p.raw_ptr_ with
  | none => { raw_ptr_ := none }
  | some _ => { raw_ptr_ := some cs }

/-- Models `operator[](size_t index)` read as a value: the pointer is advanced `index` times and
dereferenced. -/
def subscript (p : ArrayPtr T) (index : Nat) : Except Failure T :=
  readCell p.cells index

end ArrayPtr

/-! ## `SimpleVector` (simple_vector.h) -/

/-- The reserve hint object. -/
structure ReserveProxyObj where
  capacity : Nat := 0
  deriving DecidableEq, Repr

/-- The free function `Reserve(size_t capacity_to_reserve)`. -/
def Reserve (capacity_to_reserve : Nat) : ReserveProxyObj :=
  { capacity := capacity_to_reserve }

/-- The three data members of `SimpleVector<Type>`. -/
structure SimpleVector (T : Type) where
  size_ : Nat := 0
  capacity_ : Nat := 0
  array_ : ArrayPtr T := ArrayPtr.ctor_default
  deriving DecidableEq, Repr

namespace SimpleVector

variable {T : Type}

/-- Models `GetSize()`. -/
def GetSize (s : SimpleVector T) : Nat := s.size_

/-- Models `GetCapacity()`. -/
def GetCapacity (s : SimpleVector T) : Nat := s.capacity_

/-- Models `IsEmpty()`. -/
def IsEmpty (s : SimpleVector T) : Bool := s.size_ == 0

/-- Models `begin()` is `array_.Get()`: offset 0 of the block. -/
def begin (_s : SimpleVector T) : Nat := 0

/-- Models `end()` is `array_.Get() + size_`: offset `size_` of the block. -/
def end_ (s : SimpleVector T) : Nat := s.size_

/-- The logical elements: the cells in `[begin(), end())`. -/
def elems (s : SimpleVector T) : List T := s.array_.cells.take s.size_

/-- The allocated extent of the owned block. -/
def extent (s : SimpleVector T) : Nat := s.array_.cells.length

/-- Models `SimpleVector() noexcept = default`. -/
def ctor_default : SimpleVector T :=
  { size_ := 0, capacity_ := 0, array_ := ArrayPtr.ctor_default }

/-- Models `explicit SimpleVector(size_t size)`. -/
def ctor_size [Zero T] (fresh : Nat → T) (size : Nat) : Except Failure (SimpleVector T) :=
  match ArrayPtr.ctor_size fresh size with
  | .error e => .error e
  | .ok arr =>
    let array_ := (ArrayPtr.swap ArrayPtr.ctor_default arr).1
    match std_fill array_.cells 0 size (0 : T) with
    | .error e => .error e
    | .ok cs => .ok { size_ := size, capacity_ := size, array_ := array_.store cs }

/-- Models `SimpleVector(const SimpleVector& other)`. -/
def ctor_copy (fresh : Nat → T) (other : SimpleVector T) : Except Failure (SimpleVector T) :=
  let size_ := other.GetSize
  match ArrayPtr.ctor_size fresh size_ with
  | .error e => .error e
  | .ok arr =>
    let array_ := (ArrayPtr.swap ArrayPtr.ctor_default arr).1
    match std_copy other.array_.cells other.begin other.end_ array_.cells 0 with
    | .error e => .error e
    | .ok cs => .ok { size_ := size_, capacity_ := size_, array_ := array_.store cs }

/-- Models `SimpleVector(SimpleVector&& other)`: the new vector and `other` afterwards. -/
def ctor_move (fresh : Nat → T) (other : SimpleVector T) :
    Except Failure (SimpleVector T × SimpleVector T) :=
  let size_ := other.GetSize
  match ArrayPtr.ctor_size fresh size_ with
  | .error e => .error e
  | .ok arr =>
    let array_ := (ArrayPtr.swap ArrayPtr.ctor_default arr).1
    match std_copy other.array_.cells other.begin other.end_ array_.cells 0 with
    | .error e => .error e
    | .ok cs =>
      .ok ({ size_ := size_, capacity_ := size_, array_ := array_.store cs },
           { other with capacity_ := 0, size_ := 0 })

/-- Models `SimpleVector(size_t size, Type value)`. -/
def ctor_size_value (fresh : Nat → T) (size : Nat) (value : T) :
    Except Failure (SimpleVector T) :=
  match ArrayPtr.ctor_size fresh size with
  | .error e => .error e
  | .ok arr =>
    let array_ := (ArrayPtr.swap ArrayPtr.ctor_default arr).1
    match std_fill array_.cells 0 size value with
    | .error e => .error e
    | .ok cs => .ok { size_ := size, capacity_ := size, array_ := array_.store cs }

/-- Models `SimpleVector(std::initializer_list<Type> init)`. -/
def ctor_init (fresh : Nat → T) (init : List T) : Except Failure (SimpleVector T) :=
  match ArrayPtr.ctor_size fresh init.length with
  | .error e => .error e
  | .ok arr =>
    let array_ := (ArrayPtr.swap ArrayPtr.ctor_default arr).1
    match std_copy init 0 init.length array_.cells 0 with
    | .error e => .error e
    | .ok cs =>
      .ok { size_ := init.length, capacity_ := init.length, array_ := array_.store cs }

/-- Models `void Reserve(size_t new_capacity)`. -/
def Reserve (fresh : Nat → T) (s : SimpleVector T) (new_capacity : Nat) :
    Except Failure (SimpleVector T) :=
  if new_capacity > s.capacity_ then
    match ArrayPtr.ctor_size fresh new_capacity with
    | .error e => .error e
    | .ok arr =>
      match std_copy s.array_.cells s.begin s.end_ arr.cells 0 with
      | .error e => .error e
      | .ok cs =>
        .ok { s with capacity_ := new_capacity,
                     array_ := (ArrayPtr.swap s.array_ (arr.store cs)).1 }
  else .ok s

/-- Models `SimpleVector(ReserveProxyObj element)`: default members, then `Reserve`. -/
def ctor_reserve (fresh : Nat → T) (element : ReserveProxyObj) :
    Except Failure (SimpleVector T) :=
  Reserve fresh ctor_default element.capacity

/-- Models `Iterator Insert(ConstIterator pos, Type value)`: the returned iterator and the
vector afterwards. -/
def Insert (fresh : Nat → T) (s : SimpleVector T) (pos : Nat) (value : T) :
    Except Failure (Nat × SimpleVector T) :=
  let position := pos
  if position ≥ s.begin ∧ position ≤ s.end_ then
    let grown := max 1 ((2 * s.size_) % SIZE_MOD)
    let capacity_ := if s.size_ = s.capacity_ then grown else s.capacity_
    let size := if s.size_ = s.capacity_ then grown else s.capacity_
    match ArrayPtr.ctor_size fresh size with
    | .error e => .error e
    | .ok arr =>
      let posistion_in_arr := position - s.begin
      match std_copy s.array_.cells s.begin position arr.cells 0 with
      | .error e => .error e
      | .ok c1 =>
        match writeCell c1 posistion_in_arr value with
        | .error e => .error e
        | .ok c2 =>
          match std_copy s.array_.cells position s.end_ c2 (posistion_in_arr + 1) with
          | .error e => .error e
          | .ok c3 =>
            .ok (position - s.begin,
                 { size_ := (s.size_ + 1) % SIZE_MOD,
                   capacity_ := capacity_,
                   array_ := (ArrayPtr.swap s.array_ (arr.store c3)).1 })
  else .error .assertion

/-- Models `void PushBack(Type item)`. -/
def PushBack (fresh : Nat → T) (s : SimpleVector T) (item : T) :
    Except Failure (SimpleVector T) :=
  match Insert fresh s s.end_ item with
  | .error e => .error e
  | .ok r => .ok r.2

/-- Models `Iterator Erase(ConstIterator pos)`: the returned iterator and the vector afterwards. -/
def Erase (s : SimpleVector T) (pos : Nat) : Except Failure (Nat × SimpleVector T) :=
  if pos ≥ s.begin ∧ pos < s.end_ then
    match std_move_within s.array_.cells (pos + 1) s.end_ pos with
    | .error e => .error e
    | .ok cs =>
      .ok (pos, { s with size_ := (s.size_ + (SIZE_MOD - 1)) % SIZE_MOD,
                         array_ := s.array_.store cs })
  else .error .assertion

/-- Models `void PopBack() noexcept`: `Erase(end() - 1)`.  On an empty vector `end() - 1` lies
before `begin()`, which the assertion of `Erase` rejects. -/
def PopBack (s : SimpleVector T) : Except Failure (SimpleVector T) :=
  if s.end_ = 0 then .error .assertion
  else
    match Erase s (s.end_ - 1) with
    | .error e => .error e
    | .ok r => .ok r.2

/-- Models `void swap(SimpleVector& other) noexcept`: the two vectors afterwards, `this` first. -/
def swap (s other : SimpleVector T) : SimpleVector T × SimpleVector T :=
  ({ size_ := other.size_, capacity_ := other.capacity_,
     array_ := (ArrayPtr.swap s.array_ other.array_).1 },
   { size_ := s.size_, capacity_ := s.capacity_,
     array_ := (ArrayPtr.swap s.array_ other.array_).2 })

/-- Models `operator=(const SimpleVector& rhs)` for `this != &rhs`: a copy of `rhs` is built and
swapped in; the temporary takes the old state away. -/
def assign_copy (fresh : Nat → T) (s rhs : SimpleVector T) : Except Failure (SimpleVector T) :=
  match ctor_copy fresh rhs with
  | .error e => .error e
  | .ok arr => .ok (swap s arr).1

/-- Models `operator=(SimpleVector&& rhs)` for `this != &rhs`: `this` and `rhs` afterwards. -/
def assign_move (fresh : Nat → T) (s rhs : SimpleVector T) :
    Except Failure (SimpleVector T × SimpleVector T) :=
  match ctor_move fresh rhs with
  | .error e => .error e
  | .ok r => .ok ((swap s r.1).1, r.2)

/-- Models `operator[](size_t index)` read as a value. -/
def subscript (s : SimpleVector T) (index : Nat) : Except Failure T :=
  s.array_.subscript index

/-- Models `At(size_t index)`: the outcome and the vector afterwards. -/
def At (s : SimpleVector T) (index : Nat) : Except Failure T × SimpleVector T :=
  if index ≥ s.size_ then (.error .out_of_range, s)
  else (s.array_.subscript index, s)

/-- Models `void Clear() noexcept`. -/
def Clear (s : SimpleVector T) : SimpleVector T := { s with size_ := 0 }

/-- Models `void Resize(size_t new_size)`. -/
def Resize [Zero T] (fresh : Nat → T) (s : SimpleVector T) (new_size : Nat) :
    Except Failure (SimpleVector T) :=
  if new_size > s.size_ ∧ new_size ≤ s.capacity_ then
    match std_fill s.array_.cells s.end_ (s.begin + new_size) (0 : T) with
    | .error e => .error e
    | .ok cs => .ok { s with array_ := s.array_.store cs, size_ := new_size }
  else if new_size > s.size_ ∧ new_size > s.capacity_ then
    let capacity_ := max new_size ((2 * s.capacity_) % SIZE_MOD)
    match ArrayPtr.ctor_size fresh capacity_ with
    | .error e => .error e
    | .ok arr =>
      match std_copy s.array_.cells s.begin s.end_ arr.cells 0 with
      | .error e => .error e
      | .ok c1 =>
        match std_fill c1 s.size_ new_size (0 : T) with
        | .error e => .error e
        | .ok c2 =>
          .ok { size_ := new_size, capacity_ := capacity_,
                array_ := (ArrayPtr.swap s.array_ (arr.store c2)).1 }
  else .ok { s with size_ := new_size }

end SimpleVector

/-- Representation invariant of a vector: the logical size fits the recorded capacity, the
recorded capacity fits the owned block, and the block is one `new[]` could provide. -/
def SimpleVector.Inv {T : Type} (s : SimpleVector T) : Prop :=
  s.size_ ≤ s.capacity_ ∧ s.capacity_ ≤ s.extent ∧ s.extent ≤ ALLOC_MAX

instance {T : Type} (s : SimpleVector T) : Decidable s.Inv := by
  unfold SimpleVector.Inv; infer_instance

/-- The capacity `Insert` asks `new[]` for and leaves behind: `max(1, 2 * capacity_)` on a
full vector (the source computes it as `max(1, 2 * size_)`, the same number when
`size_ == capacity_`), else the old capacity. -/
def SimpleVector.grownCapacity {T : Type} (s : SimpleVector T) : Nat :=
  if s.size_ = s.capacity_ then max 1 (2 * s.capacity_) else s.capacity_

/-- The vectors a client can hold: the result of any constructor, and of any returning call
of a mutating member on vectors it already holds.  A call that ends in a `Failure` (a
failed `assert`, `bad_alloc`) returns nothing and produces no vector here. -/
inductive Reachable {T : Type} [Zero T] : SimpleVector T → Prop
  | ctor_default : Reachable SimpleVector.ctor_default
  | ctor_size (fresh : Nat → T) (n : Nat) (s : SimpleVector T) :
      SimpleVector.ctor_size fresh n = .ok s → Reachable s
  | ctor_size_value (fresh : Nat → T) (n : Nat) (v : T) (s : SimpleVector T) :
      SimpleVector.ctor_size_value fresh n v = .ok s → Reachable s
  | ctor_init (fresh : Nat → T) (init : List T) (s : SimpleVector T) :
      SimpleVector.ctor_init fresh init = .ok s → Reachable s
  | ctor_reserve (fresh : Nat → T) (n : Nat) (s : SimpleVector T) :
      SimpleVector.ctor_reserve fresh (Reserve n) = .ok s → Reachable s
  | ctor_copy (fresh : Nat → T) (a s : SimpleVector T) :
      Reachable a → SimpleVector.ctor_copy fresh a = .ok s → Reachable s
  | ctor_move_new (fresh : Nat → T) (a : SimpleVector T)
      (r : SimpleVector T × SimpleVector T) :
      Reachable a → SimpleVector.ctor_move fresh a = .ok r → Reachable r.1
  | ctor_move_source (fresh : Nat → T) (a : SimpleVector T)
      (r : SimpleVector T × SimpleVector T) :
      Reachable a → SimpleVector.ctor_move fresh a = .ok r → Reachable r.2
  | Reserve (fresh : Nat → T) (a : SimpleVector T) (n : Nat) (s : SimpleVector T) :
      Reachable a → SimpleVector.Reserve fresh a n = .ok s → Reachable s
  | PushBack (fresh : Nat → T) (a : SimpleVector T) (v : T) (s : SimpleVector T) :
      Reachable a → SimpleVector.PushBack fresh a v = .ok s → Reachable s
  | Insert (fresh : Nat → T) (a : SimpleVector T) (pos : Nat) (v : T)
      (r : Nat × SimpleVector T) :
      Reachable a → SimpleVector.Insert fresh a pos v = .ok r → Reachable r.2
  | Erase (a : SimpleVector T) (pos : Nat) (r : Nat × SimpleVector T) :
      Reachable a → SimpleVector.Erase a pos = .ok r → Reachable r.2
  | PopBack (a s : SimpleVector T) :
      Reachable a → SimpleVector.PopBack a = .ok s → Reachable s
  | Resize (fresh : Nat → T) (a : SimpleVector T) (n : Nat) (s : SimpleVector T) :
      Reachable a → SimpleVector.Resize fresh a n = .ok s → Reachable s
  | Clear (a : SimpleVector T) : Reachable a → Reachable a.Clear
  | swap_this (a b : SimpleVector T) :
      Reachable a → Reachable b → Reachable (SimpleVector.swap a b).1
  | swap_other (a b : SimpleVector T) :
      Reachable a → Reachable b → Reachable (SimpleVector.swap a b).2
  | assign_copy (fresh : Nat → T) (a b s : SimpleVector T) :
      Reachable a → Reachable b → SimpleVector.assign_copy fresh a b = .ok s → Reachable s
  | assign_move_this (fresh : Nat → T) (a b : SimpleVector T)
      (r : SimpleVector T × SimpleVector T) :
      Reachable a → Reachable b → SimpleVector.assign_move fresh a b = .ok r → Reachable r.1
  | assign_move_source (fresh : Nat → T) (a b : SimpleVector T)
      (r : SimpleVector T × SimpleVector T) :
      Reachable a → Reachable b → SimpleVector.assign_move fresh a b = .ok r → Reachable r.2

/-- The owned block has exactly `capacity_` cells, and the handle is empty (its boolean
check is false) exactly when `capacity_` is 0. -/
def SimpleVector.ExactExtent {T : Type} (s : SimpleVector T) : Prop :=
  s.extent = s.capacity_ ∧ (s.array_.toBool = false ↔ s.capacity_ = 0)

instance {T : Type} (s : SimpleVector T) : Decidable s.ExactExtent := by
  unfold SimpleVector.ExactExtent; infer_instance

/-- The vectors of `Reachable` in whose history no vector was the source of a move
construction or of a move assignment. -/
inductive ReachableUnmoved {T : Type} [Zero T] : SimpleVector T → Prop
  | ctor_default : ReachableUnmoved SimpleVector.ctor_default
  | ctor_size (fresh : Nat → T) (n : Nat) (s : SimpleVector T) :
      SimpleVector.ctor_size fresh n = .ok s → ReachableUnmoved s
  | ctor_size_value (fresh : Nat → T) (n : Nat) (v : T) (s : SimpleVector T) :
      SimpleVector.ctor_size_value fresh n v = .ok s → ReachableUnmoved s
  | ctor_init (fresh : Nat → T) (init : List T) (s : SimpleVector T) :
      SimpleVector.ctor_init fresh init = .ok s → ReachableUnmoved s
  | ctor_reserve (fresh : Nat → T) (n : Nat) (s : SimpleVector T) :
      SimpleVector.ctor_reserve fresh (Reserve n) = .ok s → ReachableUnmoved s
  | ctor_copy (fresh : Nat → T) (a s : SimpleVector T) :
      ReachableUnmoved a → SimpleVector.ctor_copy fresh a = .ok s → ReachableUnmoved s
  | ctor_move_new (fresh : Nat → T) (a : SimpleVector T)
      (r : SimpleVector T × SimpleVector T) :
      ReachableUnmoved a → SimpleVector.ctor_move fresh a = .ok r → ReachableUnmoved r.1
  | Reserve (fresh : Nat → T) (a : SimpleVector T) (n : Nat) (s : SimpleVector T) :
      ReachableUnmoved a → SimpleVector.Reserve fresh a n = .ok s → ReachableUnmoved s
  | PushBack (fresh : Nat → T) (a : SimpleVector T) (v : T) (s : SimpleVector T) :
      ReachableUnmoved a → SimpleVector.PushBack fresh a v = .ok s → ReachableUnmoved s
  | Insert (fresh : Nat → T) (a : SimpleVector T) (pos : Nat) (v : T)
      (r : Nat × SimpleVector T) :
      ReachableUnmoved a → SimpleVector.Insert fresh a pos v = .ok r → ReachableUnmoved r.2
  | Erase (a : SimpleVector T) (pos : Nat) (r : Nat × SimpleVector T) :
      ReachableUnmoved a → SimpleVector.Erase a pos = .ok r → ReachableUnmoved r.2
  | PopBack (a s : SimpleVector T) :
      ReachableUnmoved a → SimpleVector.PopBack a = .ok s → ReachableUnmoved s
  | Resize (fresh : Nat → T) (a : SimpleVector T) (n : Nat) (s : SimpleVector T) :
      ReachableUnmoved a → SimpleVector.Resize fresh a n = .ok s → ReachableUnmoved s
  | Clear (a : SimpleVector T) : ReachableUnmoved a → ReachableUnmoved a.Clear
  | swap_this (a b : SimpleVector T) :
      ReachableUnmoved a → ReachableUnmoved b → ReachableUnmoved (SimpleVector.swap a b).1
  | swap_other (a b : SimpleVector T) :
      ReachableUnmoved a → ReachableUnmoved b → ReachableUnmoved (SimpleVector.swap a b).2
  | assign_copy (fresh : Nat → T) (a b s : SimpleVector T) :
      ReachableUnmoved a → ReachableUnmoved b →
      SimpleVector.assign_copy fresh a b = .ok s → ReachableUnmoved s
  | assign_move_this (fresh : Nat → T) (a b : SimpleVector T)
      (r : SimpleVector T × SimpleVector T) :
      ReachableUnmoved a → ReachableUnmoved b →
      SimpleVector.assign_move fresh a b = .ok r → ReachableUnmoved r.1

/-! ## Comparison operators (simple_vector.h) -/

/-- The loop of the three-iterator `std::equal`:
`for (; first1 != last1; ++first1, ++first2) if (!(*first1 == *first2)) return false;
return true;`. -/
def equalLoop {T : Type} [DecidableEq T] (lhs rhs : List T) :
    Nat → Nat → Nat → Except Failure Bool
  | 0, _, _ => .ok true
  | n + 1, first1, first2 =>
    match readCell lhs first1 with
    | .error e => .error e
    | .ok x =>
      match readCell rhs first2 with
      | .error e => .error e
      | .ok y => if x = y then equalLoop lhs rhs n (first1 + 1) (first2 + 1) else .ok false

/-- Model of `std::equal(first1, last1, first2)`: the second range has no end. -/
def std_equal {T : Type} [DecidableEq T] (lhs : List T) (first1 last1 : Nat) (rhs : List T)
    (first2 : Nat) : Except Failure Bool :=
  if first1 ≤ last1 then equalLoop lhs rhs (last1 - first1) first1 first2
  else .error .out_of_bounds

/-- The loop of `std::lexicographical_compare` on ranges of `n1` and `n2` cells:
`for (; first1 != last1 && first2 != last2; ++first1, ++first2) {
   if (*first1 < *first2) return true; if (*first2 < *first1) return false; }
 return first1 == last1 && first2 != last2;`. -/
def lexLoop {T : Type} [LinearOrder T] (lhs rhs : List T) :
    Nat → Nat → Nat → Nat → Except Failure Bool
  | 0, n2, _, _ => .ok (decide (n2 ≠ 0))
  | _ + 1, 0, _, _ => .ok false
  | n1 + 1, n2 + 1, first1, first2 =>
    match readCell lhs first1 with
    | .error e => .error e
    | .ok x =>
      match readCell rhs first2 with
      | .error e => .error e
      | .ok y =>
        if x < y then .ok true
        else if y < x then .ok false
        else lexLoop lhs rhs n1 n2 (first1 + 1) (first2 + 1)

/-- Model of `std::lexicographical_compare(first1, last1, first2, last2)`. -/
def std_lexicographical_compare {T : Type} [LinearOrder T] (lhs : List T)
    (first1 last1 : Nat) (rhs : List T) (first2 last2 : Nat) : Except Failure Bool :=
  if first1 ≤ last1 ∧ first2 ≤ last2 then
    lexLoop lhs rhs (last1 - first1) (last2 - first2) first1 first2
  else .error .out_of_bounds

/-- Models `operator==(lhs, rhs)`. -/
def operator_eq {T : Type} [DecidableEq T] (lhs rhs : SimpleVector T) : Except Failure Bool :=
  std_equal lhs.array_.cells lhs.begin lhs.end_ rhs.array_.cells rhs.begin

/-- Models `operator!=(lhs, rhs)`. -/
def operator_ne {T : Type} [DecidableEq T] (lhs rhs : SimpleVector T) : Except Failure Bool :=
  match operator_eq lhs rhs with
  | .error e => .error e
  | .ok b => .ok (!b)

/-- Models `operator<(lhs, rhs)`. -/
def operator_lt {T : Type} [LinearOrder T] (lhs rhs : SimpleVector T) : Except Failure Bool :=
  std_lexicographical_compare lhs.array_.cells lhs.begin lhs.end_
    rhs.array_.cells rhs.begin rhs.end_

/-- Models `operator<=(lhs, rhs)`: `lhs < rhs || lhs == rhs`. -/
def operator_le {T : Type} [LinearOrder T] (lhs rhs : SimpleVector T) : Except Failure Bool :=
  match operator_lt lhs rhs with
  | .error e => .error e
  | .ok true => .ok true
  | .ok false => operator_eq lhs rhs

/-- Models `operator>(lhs, rhs)`: `!(lhs <= rhs)`. -/
def operator_gt {T : Type} [LinearOrder T] (lhs rhs : SimpleVector T) : Except Failure Bool :=
  match operator_le lhs rhs with
  | .error e => .error e
  | .ok b => .ok (!b)

/-- Models `operator>=(lhs, rhs)`: `!(lhs < rhs)`. -/
def operator_ge {T : Type} [LinearOrder T] (lhs rhs : SimpleVector T) : Except Failure Bool :=
  match operator_lt lhs rhs with
  | .error e => .error e
  | .ok b => .ok (!b)

/-! ## Client code and relations used by the claims -/

/-- The client loop `for (const auto& v : vs) s.PushBack(v);`. -/
def PushBackAll {T : Type} (fresh : Nat → T) : SimpleVector T → List T →
    Except Failure (SimpleVector T)
  | s, [] => .ok s
  | s, v :: vs =>
    match SimpleVector.PushBack fresh s v with
    | .error e => .error e
    | .ok s1 => PushBackAll fresh s1 vs

/-- Relation between a size `m` and a capacity `c` kept by pushing into an empty vector:
both are zero, or `c` is a power of two with `m ≤ c < 2 * m`. -/
def Doubled (m c : Nat) : Prop :=
  (m = 0 ∧ c = 0) ∨ ∃ e : Nat, c = 2 ^ e ∧ m ≤ c ∧ c < 2 * m

/-- The client code `SimpleVector<Type> B(A); B.PushBack(item);`: the vectors `A` and `B`
afterwards.  The copy constructor takes `A` by reference to const and builds the block of
`B` with `new[]`; `PushBack` is called on `B`. -/
def copy_then_PushBack {T : Type} (fresh : Nat → T) (A : SimpleVector T) (item : T) :
    Except Failure (SimpleVector T × SimpleVector T) :=
  match SimpleVector.ctor_copy fresh A with
  | .error e => .error e
  | .ok B =>
    match SimpleVector.PushBack fresh B item with
    | .error e => .error e
    | .ok B1 => .ok (A, B1)

/-- The client loop `for (size_t i = 0; i < times; ++i) s.PopBack();`. -/
def PopBackTimes {T : Type} : Nat → SimpleVector T → Except Failure (SimpleVector T)
  | 0, s => .ok s
  | times + 1, s =>
    match SimpleVector.PopBack s with
    | .error e => .error e
    | .ok s1 => PopBackTimes times s1

/-! ## Concrete vectors used to instantiate the theorems -/

/-- Contents of freshly allocated cells in the examples. -/
def junk : Nat → Int := fun i => 100 + i

/-- The vector built by `SimpleVector<int>{1, 2, 3}`. -/
def vec123 : SimpleVector Int :=
  { size_ := 3, capacity_ := 3, array_ := { raw_ptr_ := some [1, 2, 3] } }

/-- The vector `vec123` after `Insert(begin() + 1, 9)`. -/
def vec1923 : SimpleVector Int :=
  { size_ := 4, capacity_ := 6, array_ := { raw_ptr_ := some [1, 9, 2, 3, 104, 105] } }

/-- Nine values to push. -/
def oneToNine : List Int := [1, 2, 3, 4, 5, 6, 7, 8, 9]

/-- The vector `{1, 2, 3}` with spare capacity and stale cells behind the elements. -/
def vec123spare : SimpleVector Int :=
  { size_ := 3, capacity_ := 5, array_ := { raw_ptr_ := some [1, 2, 3, 8, 9] } }

/-- The vector built by `SimpleVector<int>{1, 2}`. -/
def vec12 : SimpleVector Int :=
  { size_ := 2, capacity_ := 2, array_ := { raw_ptr_ := some [1, 2] } }

/-- The vector built by `SimpleVector<int>{1, 3}`. -/
def vec13 : SimpleVector Int :=
  { size_ := 2, capacity_ := 2, array_ := { raw_ptr_ := some [1, 3] } }

/-- The vector built by `SimpleVector<int>{1, 2, 7}`. -/
def vec127 : SimpleVector Int :=
  { size_ := 3, capacity_ := 3, array_ := { raw_ptr_ := some [1, 2, 7] } }

/-- The vector `vec127` after `PopBack()`: elements `1, 2`, and the popped `7` still in
the third cell of the block. -/
def vec12stale : SimpleVector Int :=
  { size_ := 2, capacity_ := 3, array_ := { raw_ptr_ := some [1, 2, 7] } }

/-- The vector `vec123` after it was the source of a move construction. -/
def vec123moved : SimpleVector Int :=
  { size_ := 0, capacity_ := 0, array_ := { raw_ptr_ := some [1, 2, 3] } }

/-! ## Properties of the primitives and of each member function -/

theorem readCell_ok {T : Type} (b : List T) (i : Nat) (h : i < b.length) :
    readCell b i = .ok b[i] := by
  simp [readCell, List.getElem?_eq_getElem h]

theorem writeCell_ok {T : Type} (b : List T) (i : Nat) (x : T) (h : i < b.length) :
    writeCell b i x = .ok (b.set i x) := by
  simp [writeCell, h]

theorem take_succ_set {T : Type} (l : List T) (d : Nat) (x : T) (h : d < l.length) :
    (l.set d x).take (d + 1) = l.take d ++ [x] := by
  rw [List.set_eq_take_cons_drop x h]
  have hl : (List.take d l).length = d := by simp; omega
  rw [List.take_append_eq_append_take, hl]
  simp

theorem copyLoop_ok {T : Type} (src : List T) :
    ∀ (n first : Nat) (dst : List T) (d : Nat),
      first + n ≤ src.length → d + n ≤ dst.length →
      copyLoop src first n dst d
        = .ok (dst.take d ++ (src.drop first).take n ++ dst.drop (d + n)) := by
  intro n
  induction n with
  | zero => intro first dst d _ _; simp [copyLoop]
  | succ n ih =>
    intro first dst d h1 h2
    have hf : first < src.length := by omega
    have hd : d < dst.length := by omega
    rw [copyLoop, readCell_ok src first hf]
    simp only [writeCell_ok dst d _ hd]
    rw [ih (first + 1) (dst.set d _) (d + 1) (by omega) (by simp; omega)]
    rw [take_succ_set dst d _ hd, List.drop_set_of_lt _ _ (by omega),
      List.drop_eq_getElem_cons hf, List.take_succ_cons]
    simp [Nat.add_assoc, Nat.add_comm 1 n]

theorem moveLoop_ok {T : Type} :
    ∀ (n : Nat) (buf : List T) (d : Nat), d + 1 + n ≤ buf.length →
      moveLoop n buf (d + 1) d
        = .ok (buf.take d ++ (buf.drop (d + 1)).take n ++ buf.drop (d + n)) := by
  intro n
  induction n with
  | zero => intro buf d _; simp [moveLoop]
  | succ n ih =>
    intro buf d h
    have hf : d + 1 < buf.length := by omega
    have hd : d < buf.length := by omega
    rw [moveLoop, readCell_ok buf (d + 1) hf]
    simp only [writeCell_ok buf d _ hd]
    rw [ih (buf.set d _) (d + 1) (by simp; omega)]
    rw [take_succ_set buf d _ hd, List.drop_set_of_lt _ _ (by omega),
      List.drop_set_of_lt _ _ (by omega),
      List.drop_eq_getElem_cons hf, List.take_succ_cons]
    simp [Nat.add_assoc, Nat.add_comm 1 n]

theorem fillLoop_ok {T : Type} (v : T) :
    ∀ (n : Nat) (buf : List T) (first : Nat), first + n ≤ buf.length →
      fillLoop v n buf first
        = .ok (buf.take first ++ List.replicate n v ++ buf.drop (first + n)) := by
  intro n
  induction n with
  | zero => intro buf first _; simp [fillLoop]
  | succ n ih =>
    intro buf first h
    have hd : first < buf.length := by omega
    rw [fillLoop]
    simp only [writeCell_ok buf first _ hd]
    rw [ih (buf.set first _) (first + 1) (by simp; omega)]
    rw [take_succ_set buf first _ hd, List.drop_set_of_lt _ _ (by omega)]
    simp [Nat.add_assoc, Nat.add_comm 1 n, List.replicate_succ]

theorem std_copy_ok {T : Type} (src : List T) (first last : Nat) (dst : List T) (d : Nat)
    (h0 : first ≤ last) (h1 : last ≤ src.length) (h2 : d + (last - first) ≤ dst.length) :
    std_copy src first last dst d
      = .ok (dst.take d ++ (src.drop first).take (last - first) ++ dst.drop (d + (last - first))) := by
  rw [std_copy, if_pos h0]
  exact copyLoop_ok src _ _ _ _ (by omega) h2

theorem std_fill_ok {T : Type} (buf : List T) (first last : Nat) (v : T)
    (h0 : first ≤ last) (h1 : last ≤ buf.length) :
    std_fill buf first last v
      = .ok (buf.take first ++ List.replicate (last - first) v ++ buf.drop last) := by
  rw [std_fill, if_pos h0, fillLoop_ok v _ _ _ (by omega)]
  congr 3
  omega

theorem std_move_within_ok {T : Type} (buf : List T) (pos last : Nat)
    (h0 : pos + 1 ≤ last) (h1 : last ≤ buf.length) :
    std_move_within buf (pos + 1) last pos
      = .ok (buf.take pos ++ (buf.drop (pos + 1)).take (last - (pos + 1)) ++ buf.drop (last - 1)) := by
  rw [std_move_within, if_pos h0, moveLoop_ok _ _ _ (by omega)]
  congr 3
  omega

theorem ArrayPtr.cells_some {T : Type} (b : List T) :
    ArrayPtr.cells { raw_ptr_ := some b } = b := rfl

theorem ArrayPtr.store_some {T : Type} (b cs : List T) :
    ArrayPtr.store { raw_ptr_ := some b } cs = { raw_ptr_ := some cs } := rfl

theorem ArrayPtr.alloc_ok {T : Type} (fresh : Nat → T) (n : Nat) (h0 : n ≠ 0)
    (h1 : n ≤ ALLOC_MAX) :
    ArrayPtr.ctor_size fresh n = .ok { raw_ptr_ := some ((List.range n).map fresh) } := by
  simp [ArrayPtr.ctor_size, h0, h1]

theorem ALLOC_MAX_double (n : Nat) (h : n ≤ ALLOC_MAX) : (2 * n) % SIZE_MOD = 2 * n := by
  unfold ALLOC_MAX at h
  unfold SIZE_MOD
  omega

theorem SimpleVector.Insert_ok {T : Type} (fresh : Nat → T) (s : SimpleVector T) (k : Nat) (v : T)
    (hinv : s.Inv) (hk : k ≤ s.size_) (hfit : s.grownCapacity ≤ ALLOC_MAX) :
    ∃ cs : List T,
      SimpleVector.Insert fresh s k v
        = .ok (k, { size_ := s.size_ + 1, capacity_ := s.grownCapacity,
                    array_ := { raw_ptr_ := some cs } })
      ∧ cs.length = s.grownCapacity
      ∧ cs.take (s.size_ + 1) = s.elems.take k ++ v :: s.elems.drop k
      ∧ s.size_ + 1 ≤ s.grownCapacity := by
  obtain ⟨h1, h2, h3⟩ := hinv
  unfold SimpleVector.extent at h2 h3
  have hsz : s.size_ ≤ ALLOC_MAX := by omega
  have hdbl := ALLOC_MAX_double s.size_ hsz
  have hgrow : (if s.size_ = s.capacity_ then max 1 ((2 * s.size_) % SIZE_MOD) else s.capacity_)
      = s.grownCapacity := by
    unfold SimpleVector.grownCapacity
    split
    · rename_i h; rw [hdbl, h]
    · rfl
  have hnew : s.size_ + 1 ≤ s.grownCapacity := by
    unfold SimpleVector.grownCapacity
    split <;> omega
  have hsucc : (s.size_ + 1) % SIZE_MOD = s.size_ + 1 := by
    unfold ALLOC_MAX at hsz; unfold SIZE_MOD; omega
  set A := (List.range s.grownCapacity).map fresh with hA
  have hAlen : A.length = s.grownCapacity := by simp [hA]
  have hpre : k ≥ s.begin ∧ k ≤ s.end_ := ⟨Nat.zero_le _, hk⟩
  have hc1 := std_copy_ok s.array_.cells 0 k A 0 (Nat.zero_le _) (by omega) (by omega)
  simp only [List.take_zero, List.nil_append, List.drop_zero, Nat.sub_zero, Nat.zero_add] at hc1
  set c1 := List.take k s.array_.cells ++ List.drop k A with hc1def
  have hc1len : c1.length = s.grownCapacity := by
    simp [hc1def, hAlen]; omega
  have hc2 := writeCell_ok c1 k v (by omega)
  have hc3 := std_copy_ok s.array_.cells k s.size_ (c1.set k v) (k + 1) hk (by omega)
    (by simp [hc1len]; omega)
  set c3 := List.take (k + 1) (c1.set k v) ++ List.take (s.size_ - k) (List.drop k s.array_.cells) ++
        List.drop (k + 1 + (s.size_ - k)) (c1.set k v) with hc3def
  have htk : List.take (k + 1) (c1.set k v) = List.take k s.array_.cells ++ [v] := by
    rw [take_succ_set c1 k v (by omega), hc1def, List.take_left' (by simp; omega)]
  refine ⟨c3, ?_, ?_, ?_, hnew⟩
  · unfold SimpleVector.Insert
    simp only [if_pos hpre, hgrow, hsucc]
    rw [ArrayPtr.alloc_ok fresh _ (by omega) hfit]
    simp only [SimpleVector.begin, SimpleVector.end_, Nat.sub_zero, ArrayPtr.cells_some, ← hA,
      hc1, hc2, hc3, ArrayPtr.swap, ArrayPtr.store_some]
  · simp [hc3def, hc1len]; omega
  · rw [hc3def, htk, List.take_left' (by simp; omega)]
    simp [SimpleVector.elems, List.take_take, List.drop_take, Nat.min_eq_left hk]

theorem ArrayPtr.alloc_spec {T : Type} (fresh : Nat → T) (n : Nat) (h : n ≤ ALLOC_MAX) :
    ∃ arr : ArrayPtr T, ArrayPtr.ctor_size fresh n = .ok arr
      ∧ arr.cells = (List.range n).map fresh
      ∧ ∀ cs : List T, cs.length = n → (arr.store cs).cells = cs := by
  by_cases h0 : n = 0
  · subst h0
    refine ⟨{ raw_ptr_ := none }, by simp [ArrayPtr.ctor_size], by simp [ArrayPtr.cells], ?_⟩
    intro cs hcs
    simp [ArrayPtr.store, ArrayPtr.cells, List.length_eq_zero.mp hcs]
  · exact ⟨_, ArrayPtr.alloc_ok fresh n h0 h, rfl, fun cs _ => rfl⟩

theorem ArrayPtr.alloc_bad_alloc {T : Type} (fresh : Nat → T) (n : Nat)
    (h : ¬ n ≤ ALLOC_MAX) : ArrayPtr.ctor_size fresh n = .error .bad_alloc := by
  have h0 : n ≠ 0 := by intro h0; subst h0; exact h (Nat.zero_le _)
  simp [ArrayPtr.ctor_size, h0, h]

theorem SimpleVector.Insert_spec {T : Type} (fresh : Nat → T) (s : SimpleVector T) (k : Nat)
    (v : T) (hinv : s.Inv) (hk : k ≤ s.size_) (hfit : s.grownCapacity ≤ ALLOC_MAX) :
    ∃ s1 : SimpleVector T, SimpleVector.Insert fresh s k v = .ok (k, s1)
      ∧ s1.size_ = s.size_ + 1 ∧ s1.capacity_ = s.grownCapacity
      ∧ s1.extent = s.grownCapacity
      ∧ s1.elems = s.elems.take k ++ v :: s.elems.drop k := by
  obtain ⟨cs, h1, h2, h3, _⟩ := SimpleVector.Insert_ok fresh s k v hinv hk hfit
  exact ⟨_, h1, rfl, rfl, h2, h3⟩

theorem SimpleVector.Insert_assertion {T : Type} (fresh : Nat → T) (s : SimpleVector T)
    (k : Nat) (v : T) (hk : ¬ k ≤ s.size_) :
    SimpleVector.Insert fresh s k v = .error .assertion := by
  simp [SimpleVector.Insert, SimpleVector.end_, hk]

theorem SimpleVector.Insert_bad_alloc {T : Type} (fresh : Nat → T) (s : SimpleVector T)
    (k : Nat) (v : T) (hinv : s.Inv) (hk : k ≤ s.size_) (hfit : ¬ s.grownCapacity ≤ ALLOC_MAX) :
    SimpleVector.Insert fresh s k v = .error .bad_alloc := by
  obtain ⟨h1, h2, h3⟩ := hinv
  unfold SimpleVector.extent at h2 h3
  have hdbl := ALLOC_MAX_double s.size_ (by omega)
  have hgrow : (if s.size_ = s.capacity_ then max 1 ((2 * s.size_) % SIZE_MOD) else s.capacity_)
      = s.grownCapacity := by
    unfold SimpleVector.grownCapacity
    split
    · rename_i h; rw [hdbl, h]
    · rfl
  have hpre : k ≥ s.begin ∧ k ≤ s.end_ := ⟨Nat.zero_le _, hk⟩
  unfold SimpleVector.Insert
  simp only [if_pos hpre, hgrow, ArrayPtr.alloc_bad_alloc fresh _ hfit]

theorem SimpleVector.Erase_spec {T : Type} (s : SimpleVector T) (k : Nat)
    (hinv : s.Inv) (hk : k < s.size_) :
    ∃ s1 : SimpleVector T, SimpleVector.Erase s k = .ok (k, s1)
      ∧ s1.size_ = s.size_ - 1 ∧ s1.capacity_ = s.capacity_
      ∧ s1.extent = s.extent
      ∧ s1.elems = s.elems.eraseIdx k := by
  obtain ⟨h1, h2, h3⟩ := hinv
  unfold SimpleVector.extent at h2 h3
  have hpre : k ≥ s.begin ∧ k < s.end_ := ⟨Nat.zero_le _, hk⟩
  have hdec : (s.size_ + (SIZE_MOD - 1)) % SIZE_MOD = s.size_ - 1 := by
    unfold ALLOC_MAX at h3; unfold SIZE_MOD; omega
  have hmv := std_move_within_ok s.array_.cells k s.size_ (by omega) (by omega)
  obtain ⟨b, hb⟩ : ∃ b, s.array_.raw_ptr_ = some b := by
    cases hp : s.array_.raw_ptr_ with
    | none => simp [ArrayPtr.cells, hp] at h2; omega
    | some b => exact ⟨b, rfl⟩
  have hcells : s.array_.cells = b := by simp [ArrayPtr.cells, hb]
  have hstore : ∀ cs, s.array_.store cs = { raw_ptr_ := some cs } := by
    intro cs; simp [ArrayPtr.store, hb]
  refine ⟨{ s with size_ := s.size_ - 1,
                   array_ := { raw_ptr_ := some (List.take k s.array_.cells ++
                      List.take (s.size_ - (k + 1)) (List.drop (k + 1) s.array_.cells) ++
                      List.drop (s.size_ - 1) s.array_.cells) } }, ?_, rfl, rfl, ?_, ?_⟩
  · unfold SimpleVector.Erase
    rw [if_pos hpre]
    simp only [SimpleVector.end_, hmv, hdec, hstore]
  · simp [SimpleVector.extent, ArrayPtr.cells_some]
    omega
  · simp only [SimpleVector.elems, ArrayPtr.cells_some]
    rw [List.take_left' (by simp; omega)]
    rw [List.eraseIdx_eq_take_drop_succ]
    simp [List.take_take, List.drop_take, Nat.min_eq_left (Nat.le_of_lt hk)]

theorem ArrayPtr.store_cells {T : Type} (p : ArrayPtr T) (cs : List T)
    (h : cs.length = p.cells.length) : (p.store cs).cells = cs := by
  cases hp : p.raw_ptr_ with
  | none =>
    simp [ArrayPtr.cells, hp] at h
    simp [ArrayPtr.store, ArrayPtr.cells, hp, h]
  | some b => simp [ArrayPtr.store, ArrayPtr.cells, hp]

theorem SimpleVector.Erase_assertion {T : Type} (s : SimpleVector T) (k : Nat)
    (hk : ¬ k < s.size_) : SimpleVector.Erase s k = .error .assertion := by
  simp [SimpleVector.Erase, SimpleVector.end_, hk]

theorem SimpleVector.PushBack_spec {T : Type} (fresh : Nat → T) (s : SimpleVector T)
    (v : T) (hinv : s.Inv) (hfit : s.grownCapacity ≤ ALLOC_MAX) :
    ∃ s1 : SimpleVector T, SimpleVector.PushBack fresh s v = .ok s1
      ∧ s1.size_ = s.size_ + 1 ∧ s1.capacity_ = s.grownCapacity
      ∧ s1.extent = s.grownCapacity
      ∧ s1.elems = s.elems ++ [v] := by
  obtain ⟨s1, h1, h2, h3, h4, h5⟩ :=
    SimpleVector.Insert_spec fresh s s.size_ v hinv (Nat.le_refl _) hfit
  refine ⟨s1, ?_, h2, h3, h4, ?_⟩
  · simp [SimpleVector.PushBack, SimpleVector.end_, h1]
  · have hlen : s.elems.length ≤ s.size_ := by simp [SimpleVector.elems]
    rw [h5, List.take_of_length_le hlen, List.drop_of_length_le hlen]

theorem SimpleVector.PushBack_bad_alloc {T : Type} (fresh : Nat → T) (s : SimpleVector T)
    (v : T) (hinv : s.Inv) (hfit : ¬ s.grownCapacity ≤ ALLOC_MAX) :
    SimpleVector.PushBack fresh s v = .error .bad_alloc := by
  simp [SimpleVector.PushBack, SimpleVector.end_,
    SimpleVector.Insert_bad_alloc fresh s s.size_ v hinv (Nat.le_refl _) hfit]

theorem SimpleVector.elems_length {T : Type} (s : SimpleVector T) (hinv : s.Inv) :
    s.elems.length = s.size_ := by
  obtain ⟨h1, h2, _⟩ := hinv
  unfold SimpleVector.extent at h2
  simp [SimpleVector.elems]; omega

theorem SimpleVector.PopBack_spec {T : Type} (s : SimpleVector T)
    (hinv : s.Inv) (hne : 0 < s.size_) :
    ∃ s1 : SimpleVector T, SimpleVector.PopBack s = .ok s1
      ∧ s1.size_ = s.size_ - 1 ∧ s1.capacity_ = s.capacity_
      ∧ s1.extent = s.extent
      ∧ s1.elems = s.elems.dropLast := by
  obtain ⟨s1, h1, h2, h3, h4, h5⟩ := SimpleVector.Erase_spec s (s.size_ - 1) hinv (by omega)
  refine ⟨s1, ?_, h2, h3, h4, ?_⟩
  · have : s.size_ ≠ 0 := by omega
    simp [SimpleVector.PopBack, SimpleVector.end_, h1, this]
  · have hl := SimpleVector.elems_length s hinv
    rw [h5, List.dropLast_eq_eraseIdx (by omega : s.size_ - 1 + 1 = s.elems.length)]

theorem SimpleVector.PopBack_assertion {T : Type} (s : SimpleVector T) (h : s.size_ = 0) :
    SimpleVector.PopBack s = .error .assertion := by
  simp [SimpleVector.PopBack, SimpleVector.end_, h]

theorem SimpleVector.Reserve_noop {T : Type} (fresh : Nat → T) (s : SimpleVector T) (n : Nat)
    (h : n ≤ s.capacity_) : SimpleVector.Reserve fresh s n = .ok s := by
  simp [SimpleVector.Reserve, Nat.not_lt.mpr h]

theorem SimpleVector.Reserve_grow {T : Type} (fresh : Nat → T) (s : SimpleVector T) (n : Nat)
    (hinv : s.Inv) (h : s.capacity_ < n) (hfit : n ≤ ALLOC_MAX) :
    ∃ s1 : SimpleVector T, SimpleVector.Reserve fresh s n = .ok s1
      ∧ s1.size_ = s.size_ ∧ s1.capacity_ = n ∧ s1.extent = n ∧ s1.elems = s.elems := by
  obtain ⟨h1, h2, h3⟩ := hinv
  unfold SimpleVector.extent at h2 h3
  obtain ⟨arr, ha1, ha2, ha3⟩ := ArrayPtr.alloc_spec fresh n hfit
  have hAlen : arr.cells.length = n := by simp [ha2]
  have hcp := std_copy_ok s.array_.cells 0 s.size_ arr.cells 0 (Nat.zero_le _) (by omega)
    (by omega)
  simp only [List.take_zero, List.nil_append, List.drop_zero, Nat.sub_zero, Nat.zero_add] at hcp
  have hlen : (List.take s.size_ s.array_.cells ++ List.drop s.size_ arr.cells).length = n := by
    simp [hAlen]; omega
  refine ⟨{ s with capacity_ := n,
                   array_ := arr.store
                     (List.take s.size_ s.array_.cells ++ List.drop s.size_ arr.cells) },
    ?_, rfl, rfl, ?_, ?_⟩
  · unfold SimpleVector.Reserve
    rw [if_pos h]
    simp only [ha1, SimpleVector.begin, SimpleVector.end_, hcp, ArrayPtr.swap]
  · simp only [SimpleVector.extent, ha3 _ hlen, hlen]
  · simp only [SimpleVector.elems, ha3 _ hlen]
    rw [List.take_left' (by simp; omega)]

theorem SimpleVector.Reserve_bad_alloc {T : Type} (fresh : Nat → T) (s : SimpleVector T)
    (n : Nat) (h : s.capacity_ < n) (hfit : ¬ n ≤ ALLOC_MAX) :
    SimpleVector.Reserve fresh s n = .error .bad_alloc := by
  unfold SimpleVector.Reserve
  rw [if_pos h]
  simp only [ArrayPtr.alloc_bad_alloc fresh n hfit]

theorem SimpleVector.Resize_shrink {T : Type} [Zero T] (fresh : Nat → T) (s : SimpleVector T)
    (n : Nat) (h : n ≤ s.size_) :
    SimpleVector.Resize fresh s n = .ok { s with size_ := n } := by
  have h1 : ¬ (n > s.size_ ∧ n ≤ s.capacity_) := by omega
  have h2 : ¬ (n > s.size_ ∧ n > s.capacity_) := by omega
  unfold SimpleVector.Resize
  rw [if_neg h1, if_neg h2]

theorem SimpleVector.Resize_within {T : Type} [Zero T] (fresh : Nat → T) (s : SimpleVector T)
    (n : Nat) (hinv : s.Inv) (hlo : s.size_ < n) (hhi : n ≤ s.capacity_) :
    ∃ s1 : SimpleVector T, SimpleVector.Resize fresh s n = .ok s1
      ∧ s1.size_ = n ∧ s1.capacity_ = s.capacity_ ∧ s1.extent = s.extent
      ∧ s1.elems = s.elems ++ List.replicate (n - s.size_) (0 : T) := by
  obtain ⟨h1, h2, h3⟩ := hinv
  unfold SimpleVector.extent at h2 h3
  have hfill := std_fill_ok s.array_.cells s.size_ n (0 : T) (by omega) (by omega)
  have hlen : (List.take s.size_ s.array_.cells ++ List.replicate (n - s.size_) (0 : T) ++
      List.drop n s.array_.cells).length = s.array_.cells.length := by
    simp; omega
  refine ⟨{ s with array_ := s.array_.store
                     (List.take s.size_ s.array_.cells ++ List.replicate (n - s.size_) (0 : T) ++
                       List.drop n s.array_.cells),
                   size_ := n }, ?_, rfl, rfl, ?_, ?_⟩
  · unfold SimpleVector.Resize
    rw [if_pos ⟨hlo, hhi⟩]
    simp only [SimpleVector.begin, SimpleVector.end_, Nat.zero_add, hfill]
  · simp only [SimpleVector.extent, ArrayPtr.store_cells _ _ hlen, hlen]
  · simp only [SimpleVector.elems, ArrayPtr.store_cells _ _ hlen]
    rw [List.take_left' (by simp; omega)]

theorem SimpleVector.Resize_grow {T : Type} [Zero T] (fresh : Nat → T) (s : SimpleVector T)
    (n : Nat) (hinv : s.Inv) (h : s.capacity_ < n) (hfit : max n (2 * s.capacity_) ≤ ALLOC_MAX) :
    ∃ s1 : SimpleVector T, SimpleVector.Resize fresh s n = .ok s1
      ∧ s1.size_ = n ∧ s1.capacity_ = max n (2 * s.capacity_)
      ∧ s1.extent = max n (2 * s.capacity_)
      ∧ s1.elems = s.elems ++ List.replicate (n - s.size_) (0 : T) := by
  obtain ⟨h1, h2, h3⟩ := hinv
  unfold SimpleVector.extent at h2 h3
  have hdbl := ALLOC_MAX_double s.capacity_ (by omega)
  obtain ⟨arr, ha1, ha2, ha3⟩ := ArrayPtr.alloc_spec fresh _ hfit
  have hAlen : arr.cells.length = max n (2 * s.capacity_) := by simp [ha2]
  have hcp := std_copy_ok s.array_.cells 0 s.size_ arr.cells 0 (Nat.zero_le _) (by omega)
    (by omega)
  simp only [List.take_zero, List.nil_append, List.drop_zero, Nat.sub_zero, Nat.zero_add] at hcp
  set c1 := List.take s.size_ s.array_.cells ++ List.drop s.size_ arr.cells with hc1def
  have hc1len : c1.length = max n (2 * s.capacity_) := by
    simp [hc1def, hAlen]; omega
  have hfill := std_fill_ok c1 s.size_ n (0 : T) (by omega) (by omega)
  have hlen : (List.take s.size_ c1 ++ List.replicate (n - s.size_) (0 : T) ++
      List.drop n c1).length = max n (2 * s.capacity_) := by
    simp [hc1len]; omega
  have hno : ¬ (n > s.size_ ∧ n ≤ s.capacity_) := by omega
  have hyes : n > s.size_ ∧ n > s.capacity_ := by omega
  refine ⟨{ size_ := n, capacity_ := max n (2 * s.capacity_),
            array_ := arr.store (List.take s.size_ c1 ++ List.replicate (n - s.size_) (0 : T) ++
              List.drop n c1) }, ?_, rfl, rfl, ?_, ?_⟩
  · unfold SimpleVector.Resize
    rw [if_neg hno, if_pos hyes]
    simp only [hdbl, ha1, SimpleVector.begin, SimpleVector.end_, hcp, hfill, ArrayPtr.swap]
  · simp only [SimpleVector.extent, ha3 _ hlen, hlen]
  · simp only [SimpleVector.elems, ha3 _ hlen]
    rw [List.take_left' (by simp [hc1len]; omega), hc1def, List.take_left' (by simp; omega)]

theorem SimpleVector.Resize_bad_alloc {T : Type} [Zero T] (fresh : Nat → T)
    (s : SimpleVector T) (n : Nat) (hinv : s.Inv) (h : s.capacity_ < n)
    (hfit : ¬ max n (2 * s.capacity_) ≤ ALLOC_MAX) :
    SimpleVector.Resize fresh s n = .error .bad_alloc := by
  obtain ⟨h1, h2, h3⟩ := hinv
  unfold SimpleVector.extent at h2 h3
  have hdbl := ALLOC_MAX_double s.capacity_ (by omega)
  have hno : ¬ (n > s.size_ ∧ n ≤ s.capacity_) := by omega
  have hyes : n > s.size_ ∧ n > s.capacity_ := by omega
  unfold SimpleVector.Resize
  rw [if_neg hno, if_pos hyes]
  simp only [hdbl, ArrayPtr.alloc_bad_alloc fresh _ hfit]

theorem SimpleVector.ctor_fill_spec {T : Type} (fresh : Nat → T) (n : Nat) (v : T)
    (hfit : n ≤ ALLOC_MAX) :
    ∃ s1 : SimpleVector T, SimpleVector.ctor_size_value fresh n v = .ok s1
      ∧ s1.size_ = n ∧ s1.capacity_ = n ∧ s1.extent = n
      ∧ s1.elems = List.replicate n v := by
  obtain ⟨arr, ha1, ha2, ha3⟩ := ArrayPtr.alloc_spec fresh n hfit
  have hAlen : arr.cells.length = n := by simp [ha2]
  have hfill := std_fill_ok arr.cells 0 n v (Nat.zero_le _) (by omega)
  simp only [List.take_zero, List.nil_append, Nat.sub_zero] at hfill
  have hlen : (List.replicate n v ++ List.drop n arr.cells).length = n := by
    simp [hAlen]
  refine ⟨{ size_ := n, capacity_ := n,
            array_ := arr.store (List.replicate n v ++ List.drop n arr.cells) },
    ?_, rfl, rfl, ?_, ?_⟩
  · unfold SimpleVector.ctor_size_value
    simp only [ha1, ArrayPtr.swap, hfill]
  · simp only [SimpleVector.extent, ha3 _ hlen, hlen]
  · simp only [SimpleVector.elems, ha3 _ hlen]
    rw [List.take_left' (by simp)]

theorem SimpleVector.ctor_size_spec {T : Type} [Zero T] (fresh : Nat → T) (n : Nat)
    (hfit : n ≤ ALLOC_MAX) :
    ∃ s1 : SimpleVector T, SimpleVector.ctor_size fresh n = .ok s1
      ∧ s1.size_ = n ∧ s1.capacity_ = n ∧ s1.extent = n
      ∧ s1.elems = List.replicate n (0 : T) :=
  SimpleVector.ctor_fill_spec fresh n 0 hfit

theorem SimpleVector.ctor_size_value_bad_alloc {T : Type} (fresh : Nat → T) (n : Nat) (v : T)
    (hfit : ¬ n ≤ ALLOC_MAX) :
    SimpleVector.ctor_size_value fresh n v = .error .bad_alloc := by
  unfold SimpleVector.ctor_size_value
  simp only [ArrayPtr.alloc_bad_alloc fresh n hfit]

theorem SimpleVector.ctor_size_bad_alloc {T : Type} [Zero T] (fresh : Nat → T) (n : Nat)
    (hfit : ¬ n ≤ ALLOC_MAX) :
    SimpleVector.ctor_size fresh n = .error .bad_alloc :=
  SimpleVector.ctor_size_value_bad_alloc fresh n 0 hfit

theorem SimpleVector.ctor_init_spec {T : Type} (fresh : Nat → T) (init : List T)
    (hfit : init.length ≤ ALLOC_MAX) :
    ∃ s1 : SimpleVector T, SimpleVector.ctor_init fresh init = .ok s1
      ∧ s1.size_ = init.length ∧ s1.capacity_ = init.length ∧ s1.extent = init.length
      ∧ s1.elems = init := by
  obtain ⟨arr, ha1, ha2, ha3⟩ := ArrayPtr.alloc_spec fresh init.length hfit
  have hAlen : arr.cells.length = init.length := by simp [ha2]
  have hcp := std_copy_ok init 0 init.length arr.cells 0 (Nat.zero_le _) (Nat.le_refl _)
    (by omega)
  simp only [List.take_zero, List.nil_append, List.drop_zero, Nat.sub_zero, Nat.zero_add,
    List.take_length] at hcp
  have hlen : (init ++ List.drop init.length arr.cells).length = init.length := by
    simp [hAlen]
  refine ⟨{ size_ := init.length, capacity_ := init.length,
            array_ := arr.store (init ++ List.drop init.length arr.cells) },
    ?_, rfl, rfl, ?_, ?_⟩
  · unfold SimpleVector.ctor_init
    simp only [ha1, ArrayPtr.swap, hcp]
  · simp only [SimpleVector.extent, ha3 _ hlen, hlen]
  · simp only [SimpleVector.elems, ha3 _ hlen]
    rw [List.take_left' rfl]

theorem SimpleVector.ctor_init_bad_alloc {T : Type} (fresh : Nat → T) (init : List T)
    (hfit : ¬ init.length ≤ ALLOC_MAX) :
    SimpleVector.ctor_init fresh init = .error .bad_alloc := by
  unfold SimpleVector.ctor_init
  simp only [ArrayPtr.alloc_bad_alloc fresh _ hfit]

theorem SimpleVector.ctor_copy_spec {T : Type} (fresh : Nat → T) (other : SimpleVector T)
    (hinv : other.Inv) :
    ∃ s1 : SimpleVector T, SimpleVector.ctor_copy fresh other = .ok s1
      ∧ s1.size_ = other.size_ ∧ s1.capacity_ = other.size_ ∧ s1.extent = other.size_
      ∧ s1.elems = other.elems := by
  obtain ⟨h1, h2, h3⟩ := hinv
  unfold SimpleVector.extent at h2 h3
  obtain ⟨arr, ha1, ha2, ha3⟩ := ArrayPtr.alloc_spec fresh other.size_ (by omega)
  have hAlen : arr.cells.length = other.size_ := by simp [ha2]
  have hcp := std_copy_ok other.array_.cells 0 other.size_ arr.cells 0 (Nat.zero_le _)
    (by omega) (by omega)
  simp only [List.take_zero, List.nil_append, List.drop_zero, Nat.sub_zero, Nat.zero_add] at hcp
  have hlen : (List.take other.size_ other.array_.cells ++
      List.drop other.size_ arr.cells).length = other.size_ := by
    simp [hAlen]; omega
  refine ⟨{ size_ := other.size_, capacity_ := other.size_,
            array_ := arr.store (List.take other.size_ other.array_.cells ++
              List.drop other.size_ arr.cells) }, ?_, rfl, rfl, ?_, ?_⟩
  · unfold SimpleVector.ctor_copy
    simp only [SimpleVector.GetSize, ha1, ArrayPtr.swap, SimpleVector.begin, SimpleVector.end_,
      hcp]
  · simp only [SimpleVector.extent, ha3 _ hlen, hlen]
  · simp only [SimpleVector.elems, ha3 _ hlen]
    rw [List.take_left' (by simp; omega)]

theorem SimpleVector.ctor_move_eq {T : Type} (fresh : Nat → T) (other : SimpleVector T) :
    SimpleVector.ctor_move fresh other
      = (SimpleVector.ctor_copy fresh other).map
          (fun s1 => (s1, { other with capacity_ := 0, size_ := 0 })) := by
  unfold SimpleVector.ctor_move SimpleVector.ctor_copy
  dsimp only
  cases h1 : ArrayPtr.ctor_size fresh other.GetSize with
  | error e => rfl
  | ok arr =>
    dsimp only
    cases h2 : std_copy other.array_.cells other.begin other.end_
        (ArrayPtr.swap ArrayPtr.ctor_default arr).1.cells 0 with
    | error e => rfl
    | ok cs => rfl

theorem SimpleVector.Inv_of_fields {T : Type} (s : SimpleVector T) (c : Nat)
    (h1 : s.size_ ≤ s.capacity_) (h2 : s.capacity_ = c) (h3 : s.extent = c)
    (h4 : c ≤ ALLOC_MAX) : s.Inv :=
  ⟨h1, by omega, by omega⟩

theorem SimpleVector.grownCapacity_gt {T : Type} (s : SimpleVector T)
    (h : s.size_ ≤ s.capacity_) : s.size_ + 1 ≤ s.grownCapacity := by
  unfold SimpleVector.grownCapacity
  split <;> omega

theorem SimpleVector.Inv_Insert {T : Type} (fresh : Nat → T) (s : SimpleVector T) (k : Nat)
    (v : T) (r : Nat × SimpleVector T) (hinv : s.Inv)
    (h : SimpleVector.Insert fresh s k v = .ok r) : r.2.Inv := by
  by_cases hk : k ≤ s.size_
  · by_cases hfit : s.grownCapacity ≤ ALLOC_MAX
    · obtain ⟨s1, h1, h2, h3, h4, _⟩ := SimpleVector.Insert_spec fresh s k v hinv hk hfit
      rw [h1] at h
      have hr := Except.ok.inj h
      subst hr
      have := SimpleVector.grownCapacity_gt s hinv.1
      exact SimpleVector.Inv_of_fields s1 _ (by omega) h3 h4 hfit
    · rw [SimpleVector.Insert_bad_alloc fresh s k v hinv hk hfit] at h
      cases h
  · rw [SimpleVector.Insert_assertion fresh s k v hk] at h
    cases h

theorem SimpleVector.Inv_PushBack {T : Type} (fresh : Nat → T) (s : SimpleVector T)
    (v : T) (s1 : SimpleVector T) (hinv : s.Inv)
    (h : SimpleVector.PushBack fresh s v = .ok s1) : s1.Inv := by
  unfold SimpleVector.PushBack at h
  cases hi : SimpleVector.Insert fresh s s.end_ v with
  | error e => rw [hi] at h; cases h
  | ok r =>
    rw [hi] at h
    cases h
    exact SimpleVector.Inv_Insert fresh s _ v r hinv hi

theorem SimpleVector.Inv_Erase {T : Type} (s : SimpleVector T) (k : Nat)
    (r : Nat × SimpleVector T) (hinv : s.Inv)
    (h : SimpleVector.Erase s k = .ok r) : r.2.Inv := by
  by_cases hk : k < s.size_
  · obtain ⟨s1, h1, h2, h3, h4, _⟩ := SimpleVector.Erase_spec s k hinv hk
    rw [h1] at h
    have hr := Except.ok.inj h
    subst hr
    obtain ⟨i1, i2, i3⟩ := hinv
    exact ⟨by show s1.size_ ≤ s1.capacity_; omega,
           by show s1.capacity_ ≤ s1.extent; omega,
           by show s1.extent ≤ ALLOC_MAX; omega⟩
  · rw [SimpleVector.Erase_assertion s k hk] at h
    cases h

theorem SimpleVector.Inv_PopBack {T : Type} (s s1 : SimpleVector T) (hinv : s.Inv)
    (h : SimpleVector.PopBack s = .ok s1) : s1.Inv := by
  unfold SimpleVector.PopBack at h
  split at h
  · cases h
  · cases he : SimpleVector.Erase s (s.end_ - 1) with
    | error e => rw [he] at h; cases h
    | ok r =>
      rw [he] at h
      cases h
      exact SimpleVector.Inv_Erase s _ r hinv he

theorem SimpleVector.Inv_Reserve {T : Type} (fresh : Nat → T) (s : SimpleVector T) (n : Nat)
    (s1 : SimpleVector T) (hinv : s.Inv)
    (h : SimpleVector.Reserve fresh s n = .ok s1) : s1.Inv := by
  by_cases hn : n ≤ s.capacity_
  · rw [SimpleVector.Reserve_noop fresh s n hn] at h
    cases h
    exact hinv
  · by_cases hfit : n ≤ ALLOC_MAX
    · obtain ⟨s2, h1, h2, h3, h4, _⟩ :=
        SimpleVector.Reserve_grow fresh s n hinv (by omega) hfit
      rw [h1] at h
      have hr := Except.ok.inj h
      subst hr
      have := hinv.1
      exact SimpleVector.Inv_of_fields s2 n (by omega) h3 h4 hfit
    · rw [SimpleVector.Reserve_bad_alloc fresh s n (by omega) hfit] at h
      cases h

theorem SimpleVector.Inv_Resize {T : Type} [Zero T] (fresh : Nat → T) (s : SimpleVector T)
    (n : Nat) (s1 : SimpleVector T) (hinv : s.Inv)
    (h : SimpleVector.Resize fresh s n = .ok s1) : s1.Inv := by
  by_cases h0 : n ≤ s.size_
  · rw [SimpleVector.Resize_shrink fresh s n h0] at h
    cases h
    obtain ⟨i1, i2, i3⟩ := hinv
    exact ⟨by show n ≤ s.capacity_; omega, i2, i3⟩
  · by_cases hn : n ≤ s.capacity_
    · obtain ⟨s2, h1, h2, h3, h4, _⟩ :=
        SimpleVector.Resize_within fresh s n hinv (by omega) hn
      rw [h1] at h
      have hr := Except.ok.inj h
      subst hr
      obtain ⟨i1, i2, i3⟩ := hinv
      exact ⟨by omega, by omega, by omega⟩
    · by_cases hfit : max n (2 * s.capacity_) ≤ ALLOC_MAX
      · obtain ⟨s2, h1, h2, h3, h4, _⟩ :=
          SimpleVector.Resize_grow fresh s n hinv (by omega) hfit
        rw [h1] at h
        have hr := Except.ok.inj h
        subst hr
        exact SimpleVector.Inv_of_fields s2 _ (by omega) h3 h4 hfit
      · rw [SimpleVector.Resize_bad_alloc fresh s n hinv (by omega) hfit] at h
        cases h

theorem SimpleVector.Inv_ctor_default {T : Type} :
    (SimpleVector.ctor_default : SimpleVector T).Inv :=
  ⟨Nat.le_refl _, Nat.zero_le _, Nat.zero_le _⟩

theorem SimpleVector.Inv_ctor_size_value {T : Type} (fresh : Nat → T) (n : Nat) (v : T)
    (s : SimpleVector T) (h : SimpleVector.ctor_size_value fresh n v = .ok s) : s.Inv := by
  by_cases hfit : n ≤ ALLOC_MAX
  · obtain ⟨s1, h1, h2, h3, h4, _⟩ := SimpleVector.ctor_fill_spec fresh n v hfit
    rw [h1] at h
    have hr := Except.ok.inj h
    subst hr
    exact SimpleVector.Inv_of_fields s1 n (by omega) h3 h4 hfit
  · rw [SimpleVector.ctor_size_value_bad_alloc fresh n v hfit] at h
    cases h

theorem SimpleVector.Inv_ctor_init {T : Type} (fresh : Nat → T) (init : List T)
    (s : SimpleVector T) (h : SimpleVector.ctor_init fresh init = .ok s) : s.Inv := by
  by_cases hfit : init.length ≤ ALLOC_MAX
  · obtain ⟨s1, h1, h2, h3, h4, _⟩ := SimpleVector.ctor_init_spec fresh init hfit
    rw [h1] at h
    have hr := Except.ok.inj h
    subst hr
    exact SimpleVector.Inv_of_fields s1 _ (by omega) h3 h4 hfit
  · rw [SimpleVector.ctor_init_bad_alloc fresh init hfit] at h
    cases h

theorem SimpleVector.Inv_ctor_copy {T : Type} (fresh : Nat → T) (a s : SimpleVector T)
    (hinv : a.Inv) (h : SimpleVector.ctor_copy fresh a = .ok s) : s.Inv := by
  obtain ⟨s1, h1, h2, h3, h4, _⟩ := SimpleVector.ctor_copy_spec fresh a hinv
  rw [h1] at h
  cases h
  obtain ⟨i1, i2, i3⟩ := hinv
  exact SimpleVector.Inv_of_fields _ a.size_ (by omega) h3 h4 (by omega)

theorem SimpleVector.Inv_moved_from {T : Type} (a : SimpleVector T) (hinv : a.Inv) :
    ({ a with capacity_ := 0, size_ := 0 } : SimpleVector T).Inv :=
  ⟨Nat.le_refl _, Nat.zero_le _, hinv.2.2⟩

theorem SimpleVector.Inv_ctor_move {T : Type} (fresh : Nat → T) (a : SimpleVector T)
    (r : SimpleVector T × SimpleVector T) (hinv : a.Inv)
    (h : SimpleVector.ctor_move fresh a = .ok r) : r.1.Inv ∧ r.2.Inv := by
  rw [SimpleVector.ctor_move_eq] at h
  cases hc : SimpleVector.ctor_copy fresh a with
  | error e => rw [hc] at h; cases h
  | ok s1 =>
    rw [hc] at h
    cases h
    exact ⟨SimpleVector.Inv_ctor_copy fresh a s1 hinv hc, SimpleVector.Inv_moved_from a hinv⟩

theorem SimpleVector.Inv_swap {T : Type} (a b : SimpleVector T) (ha : a.Inv) (hb : b.Inv) :
    (SimpleVector.swap a b).1.Inv ∧ (SimpleVector.swap a b).2.Inv := ⟨hb, ha⟩

theorem Reachable.inv {T : Type} [Zero T] (s : SimpleVector T) (h : Reachable s) : s.Inv := by
  induction h with
  | ctor_default => exact SimpleVector.Inv_ctor_default
  | ctor_size fresh n s h => exact SimpleVector.Inv_ctor_size_value fresh n 0 s h
  | ctor_size_value fresh n v s h => exact SimpleVector.Inv_ctor_size_value fresh n v s h
  | ctor_init fresh init s h => exact SimpleVector.Inv_ctor_init fresh init s h
  | ctor_reserve fresh n s h =>
    exact SimpleVector.Inv_Reserve fresh _ n s SimpleVector.Inv_ctor_default h
  | ctor_copy fresh a s _ h ih => exact SimpleVector.Inv_ctor_copy fresh a s ih h
  | ctor_move_new fresh a r _ h ih => exact (SimpleVector.Inv_ctor_move fresh a r ih h).1
  | ctor_move_source fresh a r _ h ih => exact (SimpleVector.Inv_ctor_move fresh a r ih h).2
  | Reserve fresh a n s _ h ih => exact SimpleVector.Inv_Reserve fresh a n s ih h
  | PushBack fresh a v s _ h ih => exact SimpleVector.Inv_PushBack fresh a v s ih h
  | Insert fresh a pos v r _ h ih => exact SimpleVector.Inv_Insert fresh a pos v r ih h
  | Erase a pos r _ h ih => exact SimpleVector.Inv_Erase a pos r ih h
  | PopBack a s _ h ih => exact SimpleVector.Inv_PopBack a s ih h
  | Resize fresh a n s _ h ih => exact SimpleVector.Inv_Resize fresh a n s ih h
  | Clear a _ ih => exact ⟨Nat.zero_le _, ih.2.1, ih.2.2⟩
  | swap_this a b _ _ iha ihb => exact (SimpleVector.Inv_swap a b iha ihb).1
  | swap_other a b _ _ iha ihb => exact (SimpleVector.Inv_swap a b iha ihb).2
  | assign_copy fresh a b s _ _ h iha ihb =>
    unfold SimpleVector.assign_copy at h
    cases hc : SimpleVector.ctor_copy fresh b with
    | error e => rw [hc] at h; cases h
    | ok t =>
      rw [hc] at h
      cases h
      exact SimpleVector.Inv_ctor_copy fresh b t ihb hc
  | assign_move_this fresh a b r _ _ h iha ihb =>
    unfold SimpleVector.assign_move at h
    cases hc : SimpleVector.ctor_move fresh b with
    | error e => rw [hc] at h; cases h
    | ok t =>
      rw [hc] at h
      cases h
      exact (SimpleVector.Inv_ctor_move fresh b t ihb hc).1
  | assign_move_source fresh a b r _ _ h iha ihb =>
    unfold SimpleVector.assign_move at h
    cases hc : SimpleVector.ctor_move fresh b with
    | error e => rw [hc] at h; cases h
    | ok t =>
      rw [hc] at h
      cases h
      exact (SimpleVector.Inv_ctor_move fresh b t ihb hc).2

theorem SimpleVector.subscript_of_elems {T : Type} (s : SimpleVector T) (k : Nat) (x : T)
    (h : s.elems[k]? = some x) : s.subscript k = .ok x := by
  unfold SimpleVector.elems at h
  rw [List.getElem?_take] at h
  split at h
  · simp [SimpleVector.subscript, ArrayPtr.subscript, readCell, h]
  · cases h

theorem SimpleVector.elems_getElem_of_lt {T : Type} (s : SimpleVector T) (hinv : s.Inv)
    (k : Nat) (hk : k < s.size_) : ∃ x : T, s.elems[k]? = some x := by
  have hl := SimpleVector.elems_length s hinv
  exact ⟨s.elems[k], List.getElem?_eq_getElem (by omega)⟩

theorem SimpleVector.grownCapacity_full {T : Type} (s : SimpleVector T)
    (h : s.size_ = s.capacity_) : s.grownCapacity = max 1 (2 * s.capacity_) := by
  simp [SimpleVector.grownCapacity, h]

theorem SimpleVector.grownCapacity_spare {T : Type} (s : SimpleVector T)
    (h : s.size_ < s.capacity_) : s.grownCapacity = s.capacity_ := by
  have : s.size_ ≠ s.capacity_ := by omega
  simp [SimpleVector.grownCapacity, this]

theorem Doubled_step (m c : Nat) (h : Doubled m c) :
    Doubled (m + 1) (if m = c then max 1 (2 * c) else c) := by
  rcases h with ⟨hm, hc⟩ | ⟨e, hc, h1, h2⟩
  · subst hm; subst hc
    exact Or.inr ⟨0, by simp, by simp, by simp⟩
  · have hpos : 0 < 2 ^ e := Nat.pos_pow_of_pos e (by decide)
    by_cases hmc : m = c
    · rw [if_pos hmc]
      refine Or.inr ⟨e + 1, ?_, ?_, ?_⟩
      · rw [Nat.pow_succ, hc]; omega
      · omega
      · omega
    · rw [if_neg hmc]
      exact Or.inr ⟨e, hc, by omega, by omega⟩

theorem Doubled_least (m c : Nat) (hm : 1 ≤ m) (h : Doubled m c) :
    (∃ e : Nat, c = 2 ^ e) ∧ m ≤ c ∧ ∀ e : Nat, m ≤ 2 ^ e → c ≤ 2 ^ e := by
  rcases h with ⟨h0, _⟩ | ⟨e, hc, h1, h2⟩
  · omega
  · refine ⟨⟨e, hc⟩, h1, ?_⟩
    intro e1 he1
    by_contra hlt
    have hlt1 : 2 ^ e1 < 2 ^ e := by omega
    have he : e1 < e := (Nat.pow_lt_pow_iff_right (by decide)).mp hlt1
    have hle : 2 ^ (e1 + 1) ≤ 2 ^ e := Nat.pow_le_pow_right (by decide) he
    rw [Nat.pow_succ] at hle
    omega

theorem PushBackAll_append {T : Type} (fresh : Nat → T) (xs ys : List T) :
    ∀ s s1 : SimpleVector T, PushBackAll fresh s xs = .ok s1 →
      PushBackAll fresh s (xs ++ ys) = PushBackAll fresh s1 ys := by
  induction xs with
  | nil =>
    intro s s1 h
    simp only [PushBackAll] at h
    have hr := Except.ok.inj h
    subst hr
    rfl
  | cons x xs ih =>
    intro s s1 h
    simp only [PushBackAll, List.cons_append] at h ⊢
    cases hp : SimpleVector.PushBack fresh s x with
    | error e => rw [hp] at h; cases h
    | ok s2 =>
      rw [hp] at h
      simp only [] at h ⊢
      exact ih s2 s1 h

theorem PushBackAll_spec {T : Type} (fresh : Nat → T) (vs : List T) :
    ∀ s : SimpleVector T, s.Inv → Doubled s.size_ s.capacity_ →
      s.size_ + vs.length ≤ 2 ^ 62 →
      ∃ s1 : SimpleVector T, PushBackAll fresh s vs = .ok s1
        ∧ s1.size_ = s.size_ + vs.length ∧ s1.elems = s.elems ++ vs
        ∧ Doubled s1.size_ s1.capacity_ ∧ s1.Inv := by
  induction vs with
  | nil =>
    intro s hinv hd _
    exact ⟨s, rfl, rfl, by simp, hd, hinv⟩
  | cons v vs ih =>
    intro s hinv hd hn
    simp only [List.length_cons] at hn
    have hfit : s.grownCapacity ≤ ALLOC_MAX := by
      obtain ⟨i1, i2, i3⟩ := hinv
      unfold SimpleVector.grownCapacity
      split
      · rename_i hfull
        unfold ALLOC_MAX
        omega
      · omega
    obtain ⟨s1, h1, h2, h3, h4, h5⟩ := SimpleVector.PushBack_spec fresh s v hinv hfit
    have hinv1 : s1.Inv := SimpleVector.Inv_PushBack fresh s v s1 hinv h1
    have hd1 : Doubled s1.size_ s1.capacity_ := by
      rw [h2, h3]
      exact Doubled_step _ _ hd
    obtain ⟨s2, g1, g2, g3, g4, g5⟩ := ih s1 hinv1 hd1 (by omega)
    refine ⟨s2, ?_, ?_, ?_, g4, g5⟩
    · simp only [PushBackAll, h1, g1]
    · rw [g2, h2, List.length_cons]; omega
    · rw [g3, h5]; simp

theorem Doubled_fits {T : Type} (s : SimpleVector T) (hinv : s.Inv)
    (hn : s.size_ + 1 ≤ 2 ^ 62) : s.grownCapacity ≤ ALLOC_MAX := by
  obtain ⟨i1, i2, i3⟩ := hinv
  unfold SimpleVector.grownCapacity
  split
  · unfold ALLOC_MAX
    omega
  · omega

theorem Doubled_table (k c : Nat) (hk : k ≤ 9) (h : Doubled k c) :
    c = [0, 1, 2, 4, 4, 8, 8, 8, 8, 16].getD k 0 := by
  rcases h with ⟨h0, hc⟩ | ⟨e, hc, h1, h2⟩
  · subst h0; subst hc; rfl
  · have he : e < 5 := by
      by_contra hge
      have : 2 ^ 5 ≤ 2 ^ e := Nat.pow_le_pow_right (by decide) (by omega)
      omega
    subst hc
    interval_cases e <;> interval_cases k <;> simp at h1 h2 ⊢

theorem grownCapacity_ne_iff {T : Type} (s : SimpleVector T) :
    s.grownCapacity ≠ s.capacity_ ↔ s.size_ = s.capacity_ := by
  unfold SimpleVector.grownCapacity
  split <;> omega

theorem ArrayPtr.store_self {T : Type} (p : ArrayPtr T) : p.store p.cells = p := by
  cases p with
  | mk raw =>
    cases raw with
    | none => rfl
    | some b => rfl

theorem SimpleVector.PopBack_eq {T : Type} (s : SimpleVector T) (hinv : s.Inv)
    (hne : 0 < s.size_) :
    SimpleVector.PopBack s = .ok { s with size_ := s.size_ - 1 } := by
  obtain ⟨h1, h2, h3⟩ := hinv
  unfold SimpleVector.extent at h2 h3
  have hdec : (s.size_ + (SIZE_MOD - 1)) % SIZE_MOD = s.size_ - 1 := by
    unfold ALLOC_MAX at h3; unfold SIZE_MOD; omega
  have hne0 : ¬ s.size_ = 0 := by omega
  have hpre : s.size_ - 1 ≥ s.begin ∧ s.size_ - 1 < s.end_ :=
    ⟨Nat.zero_le _, by show s.size_ - 1 < s.size_; omega⟩
  have hlast : s.size_ - 1 + 1 = s.size_ := by omega
  unfold SimpleVector.PopBack SimpleVector.Erase
  simp only [SimpleVector.end_] at hpre ⊢
  rw [if_neg hne0, if_pos hpre]
  simp only [hlast, std_move_within, Nat.le_refl, if_true, Nat.sub_self, moveLoop, hdec,
    ArrayPtr.store_self]

theorem PopBackTimes_eq {T : Type} :
    ∀ (n : Nat) (s : SimpleVector T), s.Inv → n ≤ s.size_ →
      PopBackTimes n s = .ok { s with size_ := s.size_ - n } := by
  intro n
  induction n with
  | zero => intro s _ _; rfl
  | succ n ih =>
    intro s hinv hn
    have hinv1 : ({ s with size_ := s.size_ - 1 } : SimpleVector T).Inv := by
      obtain ⟨h1, h2, h3⟩ := hinv
      exact ⟨by show s.size_ - 1 ≤ s.capacity_; omega, h2, h3⟩
    simp only [PopBackTimes, SimpleVector.PopBack_eq s hinv (by omega)]
    rw [ih _ hinv1 (by show n ≤ s.size_ - 1; omega)]
    simp only [Nat.sub_sub, Nat.add_comm 1 n]

theorem PushBackAll_spare {T : Type} (fresh : Nat → T) (vs : List T) :
    ∀ s : SimpleVector T, s.Inv → s.size_ + vs.length ≤ s.capacity_ →
      ∃ s1 : SimpleVector T, PushBackAll fresh s vs = .ok s1
        ∧ s1.size_ = s.size_ + vs.length ∧ s1.capacity_ = s.capacity_
        ∧ s1.elems = s.elems ++ vs ∧ s1.Inv := by
  induction vs with
  | nil =>
    intro s hinv _
    exact ⟨s, rfl, rfl, rfl, by simp, hinv⟩
  | cons v vs ih =>
    intro s hinv hn
    simp only [List.length_cons] at hn
    have hspare : s.size_ < s.capacity_ := by omega
    have hg : s.grownCapacity = s.capacity_ := SimpleVector.grownCapacity_spare s hspare
    have hfit : s.grownCapacity ≤ ALLOC_MAX := by
      obtain ⟨_, i2, i3⟩ := hinv
      rw [hg]; omega
    obtain ⟨s1, h1, h2, h3, _, h5⟩ := SimpleVector.PushBack_spec fresh s v hinv hfit
    have hinv1 : s1.Inv := SimpleVector.Inv_PushBack fresh s v s1 hinv h1
    obtain ⟨s2, g1, g2, g3, g4, g5⟩ := ih s1 hinv1 (by rw [h2, h3, hg]; omega)
    refine ⟨s2, ?_, ?_, ?_, ?_, g5⟩
    · simp only [PushBackAll, h1, g1]
    · rw [g2, h2, List.length_cons]; omega
    · rw [g3, h3, hg]
    · rw [g4, h5]; simp

theorem ctor_reserve_hint_spec {T : Type} (fresh : Nat → T) (n : Nat)
    (hfit : n ≤ ALLOC_MAX) :
    ∃ s0 : SimpleVector T, SimpleVector.ctor_reserve fresh (Reserve n) = .ok s0
      ∧ s0.size_ = 0 ∧ s0.capacity_ = n ∧ s0.extent = n ∧ s0.elems = [] ∧ s0.Inv := by
  unfold SimpleVector.ctor_reserve Reserve
  by_cases h0 : n = 0
  · subst h0
    exact ⟨SimpleVector.ctor_default, SimpleVector.Reserve_noop fresh _ 0 (Nat.le_refl _),
      rfl, rfl, rfl, rfl, SimpleVector.Inv_ctor_default⟩
  · obtain ⟨s0, h1, h2, h3, h4, h5⟩ := SimpleVector.Reserve_grow fresh
      (SimpleVector.ctor_default : SimpleVector T) n SimpleVector.Inv_ctor_default
      (by show 0 < n; omega) hfit
    have hsz : s0.size_ = 0 := h2
    refine ⟨s0, h1, hsz, h3, h4, ?_, ?_⟩
    · rw [h5]; rfl
    · exact SimpleVector.Inv_of_fields s0 n (by omega) h3 h4 hfit

theorem eraseIdx_insert_at {T : Type} (xs : List T) (k : Nat) (v : T) (hk : k ≤ xs.length) :
    (xs.take k ++ v :: xs.drop k).eraseIdx k = xs := by
  have hl : (xs.take k).length = k := by simp; omega
  rw [List.eraseIdx_eq_take_drop_succ, List.take_left' hl]
  have hd : List.drop (k + 1) (List.take k xs ++ v :: List.drop k xs) = List.drop k xs := by
    rw [show List.take k xs ++ v :: List.drop k xs
        = (List.take k xs ++ [v]) ++ List.drop k xs by simp]
    exact List.drop_left' (by simp [hl])
  rw [hd, List.take_append_drop]

theorem equalLoop_ok {T : Type} [DecidableEq T] (lhs rhs : List T) :
    ∀ (n first1 first2 : Nat), first1 + n ≤ lhs.length → first2 + n ≤ rhs.length →
      equalLoop lhs rhs n first1 first2
        = .ok (decide ((lhs.drop first1).take n = (rhs.drop first2).take n)) := by
  intro n
  induction n with
  | zero => intro first1 first2 _ _; simp [equalLoop]
  | succ n ih =>
    intro first1 first2 h1 h2
    have hf1 : first1 < lhs.length := by omega
    have hf2 : first2 < rhs.length := by omega
    rw [equalLoop, readCell_ok lhs first1 hf1, readCell_ok rhs first2 hf2]
    simp only
    rw [List.drop_eq_getElem_cons hf1, List.drop_eq_getElem_cons hf2, List.take_succ_cons,
      List.take_succ_cons]
    by_cases hxy : lhs[first1] = rhs[first2]
    · rw [if_pos hxy, ih (first1 + 1) (first2 + 1) (by omega) (by omega)]
      simp [hxy]
    · rw [if_neg hxy]
      simp [hxy]

theorem operator_eq_cells {T : Type} [DecidableEq T] (a b : SimpleVector T)
    (ha : a.size_ ≤ a.extent) (hb : a.size_ ≤ b.extent) :
    operator_eq a b = .ok (decide (a.elems = b.array_.cells.take a.size_)) := by
  unfold SimpleVector.extent at ha hb
  unfold operator_eq std_equal
  simp only [SimpleVector.begin, SimpleVector.end_, Nat.zero_le, if_true, Nat.sub_zero]
  rw [equalLoop_ok _ _ _ 0 0 (by omega) (by omega)]
  simp [SimpleVector.elems]

theorem operator_eq_same_size {T : Type} [DecidableEq T] (a b : SimpleVector T)
    (ha : a.Inv) (hb : b.Inv) (hsz : a.size_ = b.size_) :
    operator_eq a b = .ok (decide (a.elems = b.elems)) := by
  have h1 : a.size_ ≤ a.extent := Nat.le_trans ha.1 ha.2.1
  have h2 : a.size_ ≤ b.extent := hsz ▸ Nat.le_trans hb.1 hb.2.1
  rw [operator_eq_cells a b h1 h2]
  simp [SimpleVector.elems, hsz]

theorem operator_eq_refl {T : Type} [DecidableEq T] (a : SimpleVector T) (ha : a.Inv) :
    operator_eq a a = .ok true := by
  rw [operator_eq_same_size a a ha ha rfl]
  simp

theorem lexLoop_ok {T : Type} [LinearOrder T] (lhs rhs : List T) :
    ∀ (n1 n2 first1 first2 : Nat), first1 + n1 ≤ lhs.length → first2 + n2 ≤ rhs.length →
      ∃ b : Bool, lexLoop lhs rhs n1 n2 first1 first2 = .ok b
        ∧ (b = true ↔
            List.Lex (· < ·) ((lhs.drop first1).take n1) ((rhs.drop first2).take n2)) := by
  intro n1
  induction n1 with
  | zero =>
    intro n2 first1 first2 _ h2
    refine ⟨decide (n2 ≠ 0), by simp [lexLoop], ?_⟩
    cases n2 with
    | zero => simp
    | succ m =>
      have hf2 : first2 < rhs.length := by omega
      rw [List.drop_eq_getElem_cons hf2, List.take_succ_cons]
      simp only [List.take_zero]
      constructor
      · intro _; exact List.Lex.nil
      · intro _; simp
  | succ n ih =>
    intro n2 first1 first2 h1 h2
    have hf1 : first1 < lhs.length := by omega
    cases n2 with
    | zero =>
      refine ⟨false, by simp [lexLoop], ?_⟩
      simp
    | succ m =>
      have hf2 : first2 < rhs.length := by omega
      rw [List.drop_eq_getElem_cons hf1, List.drop_eq_getElem_cons hf2, List.take_succ_cons,
        List.take_succ_cons]
      rw [lexLoop, readCell_ok lhs first1 hf1, readCell_ok rhs first2 hf2]
      simp only
      generalize lhs[first1] = x
      generalize rhs[first2] = y
      by_cases hlt : x < y
      · refine ⟨true, by rw [if_pos hlt], ?_⟩
        constructor
        · intro _; exact List.Lex.rel hlt
        · intro _; rfl
      · by_cases hgt : y < x
        · refine ⟨false, by rw [if_neg hlt, if_pos hgt], ?_⟩
          constructor
          · intro h; cases h
          · intro h
            cases h with
            | cons _ => exact absurd hgt (lt_irrefl _)
            | rel h => exact absurd h hlt
        · have heq : x = y := le_antisymm (not_lt.mp hgt) (not_lt.mp hlt)
          obtain ⟨b, hb1, hb2⟩ := ih m (first1 + 1) (first2 + 1) (by omega) (by omega)
          refine ⟨b, by rw [if_neg hlt, if_neg hgt, hb1], ?_⟩
          rw [hb2, heq]
          exact List.Lex.cons_iff.symm

theorem operator_lt_ok {T : Type} [LinearOrder T] (a b : SimpleVector T)
    (ha : a.Inv) (hb : b.Inv) :
    ∃ r : Bool, operator_lt a b = .ok r
      ∧ (r = true ↔ List.Lex (· < ·) a.elems b.elems) := by
  have h1 : a.size_ ≤ a.array_.cells.length := Nat.le_trans ha.1 ha.2.1
  have h2 : b.size_ ≤ b.array_.cells.length := Nat.le_trans hb.1 hb.2.1
  obtain ⟨r, hr1, hr2⟩ := lexLoop_ok a.array_.cells b.array_.cells a.size_ b.size_ 0 0
    (by omega) (by omega)
  refine ⟨r, ?_, ?_⟩
  · unfold operator_lt std_lexicographical_compare
    simp only [SimpleVector.begin, SimpleVector.end_, Nat.zero_le, and_self, if_true,
      Nat.sub_zero]
    exact hr1
  · simpa [SimpleVector.elems] using hr2

theorem ArrayPtr.toBool_of_cells_ne {T : Type} (p : ArrayPtr T) (h : 0 < p.cells.length) :
    p.toBool = true := by
  cases hp : p.raw_ptr_ with
  | none => simp [ArrayPtr.cells, hp] at h
  | some b => simp [ArrayPtr.toBool, hp]

theorem SimpleVector.exact_of_pos {T : Type} (s : SimpleVector T)
    (h1 : s.extent = s.capacity_) (h2 : 0 < s.capacity_) : s.ExactExtent := by
  have ht : s.array_.toBool = true :=
    ArrayPtr.toBool_of_cells_ne s.array_ (by unfold SimpleVector.extent at h1; omega)
  refine ⟨h1, ?_⟩
  rw [ht]
  constructor
  · intro h; cases h
  · intro h; omega

theorem SimpleVector.exact_default {T : Type} :
    (SimpleVector.ctor_default : SimpleVector T).ExactExtent :=
  ⟨rfl, Iff.intro (fun _ => rfl) (fun _ => rfl)⟩

theorem SimpleVector.exact_same {T : Type} (s s1 : SimpleVector T)
    (hc : s1.capacity_ = s.capacity_) (he : s1.extent = s.extent)
    (hb : s1.array_.toBool = s.array_.toBool) :
    (s.ExactExtent → s1.ExactExtent) ∧ (s.capacity_ = 0 → s1.capacity_ = 0) := by
  refine ⟨?_, fun h => hc.trans h⟩
  rintro ⟨h1, h2⟩
  exact ⟨by rw [he, hc, h1], by rw [hb, hc]; exact h2⟩

theorem SimpleVector.exact_Insert {T : Type} (fresh : Nat → T) (s : SimpleVector T)
    (k : Nat) (v : T) (r : Nat × SimpleVector T) (hinv : s.Inv)
    (h : SimpleVector.Insert fresh s k v = .ok r) : r.2.ExactExtent := by
  by_cases hk : k ≤ s.size_
  · by_cases hfit : s.grownCapacity ≤ ALLOC_MAX
    · obtain ⟨s1, h1, h2, h3, h4, _⟩ := SimpleVector.Insert_spec fresh s k v hinv hk hfit
      rw [h1] at h
      have hr := Except.ok.inj h
      subst hr
      have := SimpleVector.grownCapacity_gt s hinv.1
      exact SimpleVector.exact_of_pos s1 (h4.trans h3.symm) (by omega)
    · rw [SimpleVector.Insert_bad_alloc fresh s k v hinv hk hfit] at h
      cases h
  · rw [SimpleVector.Insert_assertion fresh s k v hk] at h
    cases h

theorem SimpleVector.exact_PushBack {T : Type} (fresh : Nat → T) (s : SimpleVector T)
    (v : T) (s1 : SimpleVector T) (hinv : s.Inv)
    (h : SimpleVector.PushBack fresh s v = .ok s1) : s1.ExactExtent := by
  unfold SimpleVector.PushBack at h
  cases hi : SimpleVector.Insert fresh s s.end_ v with
  | error e => rw [hi] at h; cases h
  | ok r =>
    rw [hi] at h
    cases h
    exact SimpleVector.exact_Insert fresh s _ v r hinv hi

theorem SimpleVector.same_Erase {T : Type} (s : SimpleVector T) (k : Nat)
    (r : Nat × SimpleVector T) (hinv : s.Inv) (h : SimpleVector.Erase s k = .ok r) :
    r.2.capacity_ = s.capacity_ ∧ r.2.extent = s.extent
      ∧ r.2.array_.toBool = s.array_.toBool := by
  by_cases hk : k < s.size_
  · obtain ⟨s1, h1, _, h3, h4, _⟩ := SimpleVector.Erase_spec s k hinv hk
    rw [h1] at h
    have hr := Except.ok.inj h
    subst hr
    obtain ⟨i1, i2, _⟩ := hinv
    have hpos : 0 < s.extent := by omega
    refine ⟨h3, h4, ?_⟩
    rw [ArrayPtr.toBool_of_cells_ne s1.array_ (by
        show 0 < s1.extent
        omega),
      ArrayPtr.toBool_of_cells_ne s.array_ hpos]
  · rw [SimpleVector.Erase_assertion s k hk] at h
    cases h

theorem SimpleVector.same_PopBack {T : Type} (s s1 : SimpleVector T) (hinv : s.Inv)
    (h : SimpleVector.PopBack s = .ok s1) :
    s1.capacity_ = s.capacity_ ∧ s1.extent = s.extent
      ∧ s1.array_.toBool = s.array_.toBool := by
  unfold SimpleVector.PopBack at h
  split at h
  · cases h
  · cases he : SimpleVector.Erase s (s.end_ - 1) with
    | error e => rw [he] at h; cases h
    | ok r =>
      rw [he] at h
      cases h
      exact SimpleVector.same_Erase s _ r hinv he

theorem SimpleVector.step_Reserve {T : Type} (fresh : Nat → T) (s : SimpleVector T)
    (n : Nat) (s1 : SimpleVector T) (hinv : s.Inv)
    (h : SimpleVector.Reserve fresh s n = .ok s1) : s1.ExactExtent ∨ s1 = s := by
  by_cases hn : n ≤ s.capacity_
  · rw [SimpleVector.Reserve_noop fresh s n hn] at h
    exact Or.inr (Except.ok.inj h).symm
  · by_cases hfit : n ≤ ALLOC_MAX
    · obtain ⟨s2, h1, _, h3, h4, _⟩ :=
        SimpleVector.Reserve_grow fresh s n hinv (by omega) hfit
      rw [h1] at h
      have hr := Except.ok.inj h
      subst hr
      exact Or.inl (SimpleVector.exact_of_pos _ (h4.trans h3.symm) (by omega))
    · rw [SimpleVector.Reserve_bad_alloc fresh s n (by omega) hfit] at h
      cases h

theorem SimpleVector.step_Resize {T : Type} [Zero T] (fresh : Nat → T) (s : SimpleVector T)
    (n : Nat) (s1 : SimpleVector T) (hinv : s.Inv)
    (h : SimpleVector.Resize fresh s n = .ok s1) :
    s1.ExactExtent ∨ (s1.capacity_ = s.capacity_ ∧ s1.extent = s.extent
      ∧ s1.array_.toBool = s.array_.toBool) := by
  by_cases h0 : n ≤ s.size_
  · rw [SimpleVector.Resize_shrink fresh s n h0] at h
    have hr := Except.ok.inj h
    subst hr
    exact Or.inr ⟨rfl, rfl, rfl⟩
  · by_cases hn : n ≤ s.capacity_
    · obtain ⟨s2, h1, _, h3, h4, _⟩ :=
        SimpleVector.Resize_within fresh s n hinv (by omega) hn
      rw [h1] at h
      have hr := Except.ok.inj h
      subst hr
      obtain ⟨i1, i2, _⟩ := hinv
      have hpos : 0 < s.extent := by omega
      refine Or.inr ⟨h3, h4, ?_⟩
      rw [ArrayPtr.toBool_of_cells_ne _ (by
          show 0 < SimpleVector.extent _
          omega),
        ArrayPtr.toBool_of_cells_ne s.array_ hpos]
    · by_cases hfit : max n (2 * s.capacity_) ≤ ALLOC_MAX
      · obtain ⟨s2, h1, _, h3, h4, _⟩ :=
          SimpleVector.Resize_grow fresh s n hinv (by omega) hfit
        rw [h1] at h
        have hr := Except.ok.inj h
        subst hr
        exact Or.inl (SimpleVector.exact_of_pos _ (h4.trans h3.symm) (by omega))
      · rw [SimpleVector.Resize_bad_alloc fresh s n hinv (by omega) hfit] at h
        cases h

theorem SimpleVector.exact_ctor_size_value {T : Type} (fresh : Nat → T) (n : Nat) (v : T)
    (s : SimpleVector T) (h : SimpleVector.ctor_size_value fresh n v = .ok s) :
    s.ExactExtent := by
  by_cases h0 : n = 0
  · subst h0
    have hr : s = SimpleVector.ctor_default := (Except.ok.inj h).symm
    rw [hr]
    exact SimpleVector.exact_default
  · by_cases hfit : n ≤ ALLOC_MAX
    · obtain ⟨s1, h1, _, h3, h4, _⟩ := SimpleVector.ctor_fill_spec fresh n v hfit
      rw [h1] at h
      have hr := Except.ok.inj h
      subst hr
      exact SimpleVector.exact_of_pos _ (h4.trans h3.symm) (by omega)
    · rw [SimpleVector.ctor_size_value_bad_alloc fresh n v hfit] at h
      cases h

theorem SimpleVector.exact_ctor_init {T : Type} (fresh : Nat → T) (init : List T)
    (s : SimpleVector T) (h : SimpleVector.ctor_init fresh init = .ok s) :
    s.ExactExtent := by
  cases init with
  | nil =>
    have hr : s = SimpleVector.ctor_default := (Except.ok.inj h).symm
    rw [hr]
    exact SimpleVector.exact_default
  | cons x xs =>
    by_cases hfit : (x :: xs).length ≤ ALLOC_MAX
    · obtain ⟨s1, h1, _, h3, h4, _⟩ := SimpleVector.ctor_init_spec fresh (x :: xs) hfit
      rw [h1] at h
      have hr := Except.ok.inj h
      subst hr
      exact SimpleVector.exact_of_pos _ (h4.trans h3.symm) (by rw [h3]; simp)
    · rw [SimpleVector.ctor_init_bad_alloc fresh (x :: xs) hfit] at h
      cases h

theorem SimpleVector.ctor_copy_empty {T : Type} (fresh : Nat → T) (other : SimpleVector T)
    (h0 : other.size_ = 0) :
    SimpleVector.ctor_copy fresh other = .ok SimpleVector.ctor_default := by
  unfold SimpleVector.ctor_copy
  simp only [SimpleVector.GetSize, SimpleVector.begin, SimpleVector.end_, h0]
  rfl

theorem SimpleVector.exact_ctor_copy {T : Type} (fresh : Nat → T) (a s : SimpleVector T)
    (hinv : a.Inv) (h : SimpleVector.ctor_copy fresh a = .ok s) : s.ExactExtent := by
  by_cases h0 : a.size_ = 0
  · rw [SimpleVector.ctor_copy_empty fresh a h0] at h
    have hr : s = SimpleVector.ctor_default := (Except.ok.inj h).symm
    rw [hr]
    exact SimpleVector.exact_default
  · obtain ⟨s1, h1, _, h3, h4, _⟩ := SimpleVector.ctor_copy_spec fresh a hinv
    rw [h1] at h
    have hr := Except.ok.inj h
    subst hr
    exact SimpleVector.exact_of_pos _ (h4.trans h3.symm) (by omega)

theorem SimpleVector.ctor_move_parts {T : Type} (fresh : Nat → T) (a : SimpleVector T)
    (r : SimpleVector T × SimpleVector T) (h : SimpleVector.ctor_move fresh a = .ok r) :
    SimpleVector.ctor_copy fresh a = .ok r.1
      ∧ r.2 = { a with capacity_ := 0, size_ := 0 } := by
  rw [SimpleVector.ctor_move_eq] at h
  cases hc : SimpleVector.ctor_copy fresh a with
  | error e => rw [hc] at h; cases h
  | ok s1 =>
    rw [hc] at h
    have hr := Except.ok.inj h
    subst hr
    exact ⟨rfl, rfl⟩

theorem ReachableUnmoved.exact {T : Type} [Zero T] (s : SimpleVector T)
    (h : ReachableUnmoved s) : s.Inv ∧ s.ExactExtent := by
  induction h with
  | ctor_default => exact ⟨SimpleVector.Inv_ctor_default, SimpleVector.exact_default⟩
  | ctor_size fresh n s h =>
    exact ⟨SimpleVector.Inv_ctor_size_value fresh n 0 s h,
      SimpleVector.exact_ctor_size_value fresh n 0 s h⟩
  | ctor_size_value fresh n v s h =>
    exact ⟨SimpleVector.Inv_ctor_size_value fresh n v s h,
      SimpleVector.exact_ctor_size_value fresh n v s h⟩
  | ctor_init fresh init s h =>
    exact ⟨SimpleVector.Inv_ctor_init fresh init s h,
      SimpleVector.exact_ctor_init fresh init s h⟩
  | ctor_reserve fresh n s h =>
    refine ⟨SimpleVector.Inv_Reserve fresh _ n s SimpleVector.Inv_ctor_default h, ?_⟩
    rcases SimpleVector.step_Reserve fresh _ n s SimpleVector.Inv_ctor_default h with he | he
    · exact he
    · rw [he]; exact SimpleVector.exact_default
  | ctor_copy fresh a s _ h ih =>
    exact ⟨SimpleVector.Inv_ctor_copy fresh a s ih.1 h,
      SimpleVector.exact_ctor_copy fresh a s ih.1 h⟩
  | ctor_move_new fresh a r _ h ih =>
    have hc := (SimpleVector.ctor_move_parts fresh a r h).1
    exact ⟨SimpleVector.Inv_ctor_copy fresh a r.1 ih.1 hc,
      SimpleVector.exact_ctor_copy fresh a r.1 ih.1 hc⟩
  | Reserve fresh a n s _ h ih =>
    refine ⟨SimpleVector.Inv_Reserve fresh a n s ih.1 h, ?_⟩
    rcases SimpleVector.step_Reserve fresh a n s ih.1 h with he | he
    · exact he
    · rw [he]; exact ih.2
  | PushBack fresh a v s _ h ih =>
    exact ⟨SimpleVector.Inv_PushBack fresh a v s ih.1 h,
      SimpleVector.exact_PushBack fresh a v s ih.1 h⟩
  | Insert fresh a pos v r _ h ih =>
    exact ⟨SimpleVector.Inv_Insert fresh a pos v r ih.1 h,
      SimpleVector.exact_Insert fresh a pos v r ih.1 h⟩
  | Erase a pos r _ h ih =>
    obtain ⟨h1, h2, h3⟩ := SimpleVector.same_Erase a pos r ih.1 h
    exact ⟨SimpleVector.Inv_Erase a pos r ih.1 h,
      (SimpleVector.exact_same a r.2 h1 h2 h3).1 ih.2⟩
  | PopBack a s _ h ih =>
    obtain ⟨h1, h2, h3⟩ := SimpleVector.same_PopBack a s ih.1 h
    exact ⟨SimpleVector.Inv_PopBack a s ih.1 h,
      (SimpleVector.exact_same a s h1 h2 h3).1 ih.2⟩
  | Resize fresh a n s _ h ih =>
    refine ⟨SimpleVector.Inv_Resize fresh a n s ih.1 h, ?_⟩
    rcases SimpleVector.step_Resize fresh a n s ih.1 h with he | ⟨h1, h2, h3⟩
    · exact he
    · exact (SimpleVector.exact_same a s h1 h2 h3).1 ih.2
  | Clear a _ ih => exact ⟨⟨Nat.zero_le _, ih.1.2.1, ih.1.2.2⟩, ih.2⟩
  | swap_this a b _ _ iha ihb => exact ihb
  | swap_other a b _ _ iha ihb => exact iha
  | assign_copy fresh a b s _ _ h iha ihb =>
    unfold SimpleVector.assign_copy at h
    cases hc : SimpleVector.ctor_copy fresh b with
    | error e => rw [hc] at h; cases h
    | ok t =>
      rw [hc] at h
      cases h
      exact ⟨SimpleVector.Inv_ctor_copy fresh b t ihb.1 hc,
        SimpleVector.exact_ctor_copy fresh b t ihb.1 hc⟩
  | assign_move_this fresh a b r _ _ h iha ihb =>
    unfold SimpleVector.assign_move at h
    cases hm : SimpleVector.ctor_move fresh b with
    | error e => rw [hm] at h; cases h
    | ok t =>
      rw [hm] at h
      cases h
      have hc := (SimpleVector.ctor_move_parts fresh b t hm).1
      exact ⟨SimpleVector.Inv_ctor_copy fresh b t.1 ihb.1 hc,
        SimpleVector.exact_ctor_copy fresh b t.1 ihb.1 hc⟩

theorem Reachable.exact_or_zero {T : Type} [Zero T] (s : SimpleVector T)
    (h : Reachable s) : s.ExactExtent ∨ s.capacity_ = 0 := by
  induction h with
  | ctor_default => exact Or.inl SimpleVector.exact_default
  | ctor_size fresh n s h => exact Or.inl (SimpleVector.exact_ctor_size_value fresh n 0 s h)
  | ctor_size_value fresh n v s h =>
    exact Or.inl (SimpleVector.exact_ctor_size_value fresh n v s h)
  | ctor_init fresh init s h => exact Or.inl (SimpleVector.exact_ctor_init fresh init s h)
  | ctor_reserve fresh n s h =>
    rcases SimpleVector.step_Reserve fresh _ n s SimpleVector.Inv_ctor_default h with he | he
    · exact Or.inl he
    · rw [he]; exact Or.inl SimpleVector.exact_default
  | ctor_copy fresh a s ha h _ =>
    exact Or.inl (SimpleVector.exact_ctor_copy fresh a s (Reachable.inv a ha) h)
  | ctor_move_new fresh a r ha h _ =>
    exact Or.inl (SimpleVector.exact_ctor_copy fresh a r.1 (Reachable.inv a ha)
      (SimpleVector.ctor_move_parts fresh a r h).1)
  | ctor_move_source fresh a r _ h _ =>
    rw [(SimpleVector.ctor_move_parts fresh a r h).2]
    exact Or.inr rfl
  | Reserve fresh a n s ha h ih =>
    rcases SimpleVector.step_Reserve fresh a n s (Reachable.inv a ha) h with he | he
    · exact Or.inl he
    · rw [he]; exact ih
  | PushBack fresh a v s ha h _ =>
    exact Or.inl (SimpleVector.exact_PushBack fresh a v s (Reachable.inv a ha) h)
  | Insert fresh a pos v r ha h _ =>
    exact Or.inl (SimpleVector.exact_Insert fresh a pos v r (Reachable.inv a ha) h)
  | Erase a pos r ha h ih =>
    obtain ⟨h1, h2, h3⟩ := SimpleVector.same_Erase a pos r (Reachable.inv a ha) h
    exact ih.imp (SimpleVector.exact_same a r.2 h1 h2 h3).1
      (SimpleVector.exact_same a r.2 h1 h2 h3).2
  | PopBack a s ha h ih =>
    obtain ⟨h1, h2, h3⟩ := SimpleVector.same_PopBack a s (Reachable.inv a ha) h
    exact ih.imp (SimpleVector.exact_same a s h1 h2 h3).1
      (SimpleVector.exact_same a s h1 h2 h3).2
  | Resize fresh a n s ha h ih =>
    rcases SimpleVector.step_Resize fresh a n s (Reachable.inv a ha) h with he | ⟨h1, h2, h3⟩
    · exact Or.inl he
    · exact ih.imp (SimpleVector.exact_same a s h1 h2 h3).1
        (SimpleVector.exact_same a s h1 h2 h3).2
  | Clear a _ ih => exact ih
  | swap_this a b _ _ iha ihb => exact ihb
  | swap_other a b _ _ iha ihb => exact iha
  | assign_copy fresh a b s _ hb h _ _ =>
    unfold SimpleVector.assign_copy at h
    cases hc : SimpleVector.ctor_copy fresh b with
    | error e => rw [hc] at h; cases h
    | ok t =>
      rw [hc] at h
      cases h
      exact Or.inl (SimpleVector.exact_ctor_copy fresh b t (Reachable.inv b hb) hc)
  | assign_move_this fresh a b r _ hb h _ _ =>
    unfold SimpleVector.assign_move at h
    cases hm : SimpleVector.ctor_move fresh b with
    | error e => rw [hm] at h; cases h
    | ok t =>
      rw [hm] at h
      cases h
      exact Or.inl (SimpleVector.exact_ctor_copy fresh b t.1 (Reachable.inv b hb)
        (SimpleVector.ctor_move_parts fresh b t hm).1)
  | assign_move_source fresh a b r _ hb h _ _ =>
    unfold SimpleVector.assign_move at h
    cases hm : SimpleVector.ctor_move fresh b with
    | error e => rw [hm] at h; cases h
    | ok t =>
      rw [hm] at h
      cases h
      show SimpleVector.ExactExtent t.2 ∨ t.2.capacity_ = 0
      rw [(SimpleVector.ctor_move_parts fresh b t hm).2]
      exact Or.inr rfl

theorem ArrayPtr.cells_of_toBool_false {T : Type} (p : ArrayPtr T) (h : p.toBool = false) :
    p.cells = [] := by
  cases hp : p.raw_ptr_ with
  | none => simp [ArrayPtr.cells, hp]
  | some b => simp [ArrayPtr.toBool, hp] at h

/-! ## The claims -/

/-- C1: every vector reachable from a constructor through returning calls of `Reserve`,
`PushBack`, `Insert`, `Erase`, `PopBack`, `Resize`, `Clear`, `swap` and the assignments
satisfies `GetSize() ≤ GetCapacity()`. -/
theorem C1_size_le_capacity {T : Type} [Zero T] (s : SimpleVector T) (h : Reachable s) :
    s.GetSize ≤ s.GetCapacity :=
  (Reachable.inv s h).1

/-- C1 at the vector obtained from `{1, 2, 3}` by `Insert(begin() + 1, 9)`. -/
theorem C1_size_le_capacity_witness :
    Reachable vec1923 ∧ vec1923.GetSize ≤ vec1923.GetCapacity :=
  have hr : Reachable vec1923 :=
    Reachable.Insert junk vec123 1 9 (1, vec1923)
      (Reachable.ctor_init junk [1, 2, 3] vec123 rfl) rfl
  ⟨hr, C1_size_le_capacity vec1923 hr⟩

/-- C2: on a vector with elements `xs` and `k ≤ size`, `Insert(begin() + k, v)` returns,
the elements become `take k xs ++ [v] ++ drop k xs`, the size grows by one, and the
returned iterator is `begin() + k` of the new buffer, where `v` is stored. -/
theorem C2_Insert_elems {T : Type} (fresh : Nat → T) (s : SimpleVector T) (k : Nat) (v : T)
    (hinv : s.Inv) (hk : k ≤ s.GetSize) (hfit : s.grownCapacity ≤ ALLOC_MAX) :
    ∃ s1 : SimpleVector T,
      SimpleVector.Insert fresh s k v = .ok (s1.begin + k, s1)
      ∧ s1.elems = s.elems.take k ++ [v] ++ s.elems.drop k
      ∧ s1.GetSize = s.GetSize + 1
      ∧ s1.subscript (s1.begin + k) = .ok v := by
  obtain ⟨s1, h1, h2, h3, h4, h5⟩ := SimpleVector.Insert_spec fresh s k v hinv hk hfit
  have hl := SimpleVector.elems_length s hinv
  have hk1 : k ≤ s.size_ := hk
  refine ⟨s1, ?_, ?_, h2, ?_⟩
  · simpa [SimpleVector.begin] using h1
  · simp [h5]
  · apply SimpleVector.subscript_of_elems
    rw [h5, SimpleVector.begin, Nat.zero_add,
      List.getElem?_append_right (by simp)]
    simp [Nat.min_eq_left (by omega : k ≤ s.elems.length)]

/-- C2 at `{1, 2, 3}`, `k = 1`, `v = 9`. -/
theorem C2_Insert_elems_witness :
    ∃ s1 : SimpleVector Int,
      SimpleVector.Insert junk vec123 1 9 = .ok (s1.begin + 1, s1)
      ∧ s1.elems = vec123.elems.take 1 ++ [9] ++ vec123.elems.drop 1
      ∧ s1.GetSize = vec123.GetSize + 1
      ∧ s1.subscript (s1.begin + 1) = .ok 9 :=
  C2_Insert_elems junk vec123 1 9 (by decide) (by decide) (by decide)

/-- C3: for a valid position, `Insert` (hence `PushBack`) returns with capacity
`max(1, 2 * old capacity)` when the vector was full and with the old capacity when
`size < capacity`. -/
theorem C3_Insert_capacity {T : Type} (fresh : Nat → T) (s : SimpleVector T) (k : Nat) (v : T)
    (hinv : s.Inv) (hk : k ≤ s.GetSize) (hfit : s.grownCapacity ≤ ALLOC_MAX) :
    (∃ r : Nat × SimpleVector T, SimpleVector.Insert fresh s k v = .ok r
      ∧ (s.GetSize = s.GetCapacity → r.2.GetCapacity = max 1 (2 * s.GetCapacity))
      ∧ (s.GetSize < s.GetCapacity → r.2.GetCapacity = s.GetCapacity))
    ∧ (∃ s1 : SimpleVector T, SimpleVector.PushBack fresh s v = .ok s1
      ∧ (s.GetSize = s.GetCapacity → s1.GetCapacity = max 1 (2 * s.GetCapacity))
      ∧ (s.GetSize < s.GetCapacity → s1.GetCapacity = s.GetCapacity)) := by
  obtain ⟨s1, h1, _, h3, _, _⟩ := SimpleVector.Insert_spec fresh s k v hinv hk hfit
  obtain ⟨s2, g1, _, g3, _, _⟩ := SimpleVector.PushBack_spec fresh s v hinv hfit
  refine ⟨⟨(k, s1), h1, ?_, ?_⟩, ⟨s2, g1, ?_, ?_⟩⟩
  · intro hfull
    exact h3.trans (SimpleVector.grownCapacity_full s hfull)
  · intro hspare
    exact h3.trans (SimpleVector.grownCapacity_spare s hspare)
  · intro hfull
    exact g3.trans (SimpleVector.grownCapacity_full s hfull)
  · intro hspare
    exact g3.trans (SimpleVector.grownCapacity_spare s hspare)

/-- C3 at the full vector `{1, 2, 3}`, `k = 1`. -/
theorem C3_Insert_capacity_witness :
    (∃ r : Nat × SimpleVector Int, SimpleVector.Insert junk vec123 1 9 = .ok r
      ∧ (vec123.GetSize = vec123.GetCapacity → r.2.GetCapacity = max 1 (2 * vec123.GetCapacity))
      ∧ (vec123.GetSize < vec123.GetCapacity → r.2.GetCapacity = vec123.GetCapacity))
    ∧ (∃ s1 : SimpleVector Int, SimpleVector.PushBack junk vec123 9 = .ok s1
      ∧ (vec123.GetSize = vec123.GetCapacity → s1.GetCapacity = max 1 (2 * vec123.GetCapacity))
      ∧ (vec123.GetSize < vec123.GetCapacity → s1.GetCapacity = vec123.GetCapacity)) :=
  C3_Insert_capacity junk vec123 1 9 (by decide) (by decide) (by decide)

/-- C4: pushing the `n ≥ 1` values `vs` into a default-constructed vector returns with size
`n`, elements `vs`, and capacity the smallest power of two `≥ n`; each `PushBack` of the
run changes the capacity exactly when the size equalled the capacity before it; the
capacities after `0, …, 9` pushes are `0, 1, 2, 4, 4, 8, 8, 8, 8, 16`. -/
theorem C4_PushBack_doubling {T : Type} (fresh : Nat → T) (vs : List T)
    (hn1 : 1 ≤ vs.length) (hn : vs.length ≤ 2 ^ 62) :
    (∃ s : SimpleVector T,
      PushBackAll fresh SimpleVector.ctor_default vs = .ok s
      ∧ s.GetSize = vs.length ∧ s.elems = vs
      ∧ (∃ e : Nat, s.GetCapacity = 2 ^ e) ∧ vs.length ≤ s.GetCapacity
      ∧ ∀ e : Nat, vs.length ≤ 2 ^ e → s.GetCapacity ≤ 2 ^ e)
    ∧ (∀ (k : Nat) (hk : k < vs.length), ∃ a b : SimpleVector T,
        PushBackAll fresh SimpleVector.ctor_default (vs.take k) = .ok a
        ∧ SimpleVector.PushBack fresh a vs[k] = .ok b
        ∧ PushBackAll fresh SimpleVector.ctor_default (vs.take (k + 1)) = .ok b
        ∧ (b.GetCapacity ≠ a.GetCapacity ↔ a.GetSize = a.GetCapacity))
    ∧ (∀ k : Nat, k ≤ vs.length → k ≤ 9 → ∃ a : SimpleVector T,
        PushBackAll fresh SimpleVector.ctor_default (vs.take k) = .ok a
        ∧ a.GetCapacity = [0, 1, 2, 4, 4, 8, 8, 8, 8, 16].getD k 0) := by
  have hd0 : Doubled (SimpleVector.ctor_default : SimpleVector T).size_
      (SimpleVector.ctor_default : SimpleVector T).capacity_ := Or.inl ⟨rfl, rfl⟩
  have hprefix : ∀ k : Nat, k ≤ vs.length → ∃ a : SimpleVector T,
      PushBackAll fresh SimpleVector.ctor_default (vs.take k) = .ok a
      ∧ a.size_ = k ∧ a.elems = vs.take k ∧ Doubled a.size_ a.capacity_ ∧ a.Inv := by
    intro k hk
    have hlen : (vs.take k).length = k := by simp; omega
    obtain ⟨a, h1, h2, h3, h4, h5⟩ := PushBackAll_spec fresh (vs.take k)
      SimpleVector.ctor_default SimpleVector.Inv_ctor_default hd0
      (by rw [hlen]; show 0 + k ≤ 2 ^ 62; omega)
    refine ⟨a, h1, ?_, ?_, h4, h5⟩
    · rw [h2, hlen]; show 0 + k = k; omega
    · rw [h3]; simp [SimpleVector.elems, SimpleVector.ctor_default, ArrayPtr.ctor_default,
        ArrayPtr.cells]
  refine ⟨?_, ?_, ?_⟩
  · obtain ⟨s, h1, h2, h3, h4, _⟩ := hprefix vs.length (Nat.le_refl _)
    rw [List.take_length] at h1 h3
    have hd : Doubled vs.length s.capacity_ := h2 ▸ h4
    obtain ⟨g1, g2, g3⟩ := Doubled_least vs.length s.capacity_ hn1 hd
    exact ⟨s, h1, h2, h3, g1, g2, g3⟩
  · intro k hk
    obtain ⟨a, h1, h2, _, _, h5⟩ := hprefix k (by omega)
    have hfit : a.grownCapacity ≤ ALLOC_MAX := Doubled_fits a h5 (by omega)
    obtain ⟨b, g1, _, g3, _, _⟩ := SimpleVector.PushBack_spec fresh a vs[k] h5 hfit
    refine ⟨a, b, h1, g1, ?_, ?_⟩
    · rw [← List.take_concat_get' vs k hk, PushBackAll_append fresh _ _ _ a h1]
      simp only [PushBackAll, g1]
    · show b.capacity_ ≠ a.capacity_ ↔ a.size_ = a.capacity_
      rw [g3]
      exact grownCapacity_ne_iff a
  · intro k hk hk9
    obtain ⟨a, h1, h2, _, h4, _⟩ := hprefix k hk
    exact ⟨a, h1, Doubled_table k a.capacity_ hk9 (h2 ▸ h4)⟩

/-- C4 at the pushes `1, …, 9`. -/
theorem C4_PushBack_doubling_witness :
    (∃ s : SimpleVector Int,
      PushBackAll junk SimpleVector.ctor_default oneToNine = .ok s
      ∧ s.GetSize = oneToNine.length ∧ s.elems = oneToNine
      ∧ (∃ e : Nat, s.GetCapacity = 2 ^ e) ∧ oneToNine.length ≤ s.GetCapacity
      ∧ ∀ e : Nat, oneToNine.length ≤ 2 ^ e → s.GetCapacity ≤ 2 ^ e)
    ∧ (∀ (k : Nat) (hk : k < oneToNine.length), ∃ a b : SimpleVector Int,
        PushBackAll junk SimpleVector.ctor_default (oneToNine.take k) = .ok a
        ∧ SimpleVector.PushBack junk a oneToNine[k] = .ok b
        ∧ PushBackAll junk SimpleVector.ctor_default (oneToNine.take (k + 1)) = .ok b
        ∧ (b.GetCapacity ≠ a.GetCapacity ↔ a.GetSize = a.GetCapacity))
    ∧ (∀ k : Nat, k ≤ oneToNine.length → k ≤ 9 → ∃ a : SimpleVector Int,
        PushBackAll junk SimpleVector.ctor_default (oneToNine.take k) = .ok a
        ∧ a.GetCapacity = [0, 1, 2, 4, 4, 8, 8, 8, 8, 16].getD k 0) :=
  C4_PushBack_doubling junk oneToNine (by decide) (by decide)

/-- C5: on a vector with elements `xs` and `k < size`, `Erase(begin() + k)` returns the
input position; the elements become `xs` without index `k`, the size drops by one, the
capacity and the block stay; the returned position holds the element that followed the
erased one, or is `end()` when `k` was the last index. -/
theorem C5_Erase_elems {T : Type} (s : SimpleVector T) (k : Nat)
    (hinv : s.Inv) (hk : k < s.GetSize) :
    ∃ s1 : SimpleVector T,
      SimpleVector.Erase s k = .ok (s.begin + k, s1)
      ∧ s1.elems = s.elems.eraseIdx k
      ∧ s1.GetSize = s.GetSize - 1
      ∧ s1.GetCapacity = s.GetCapacity
      ∧ s1.extent = s.extent
      ∧ (k + 1 < s.GetSize →
          ∃ x : T, s.subscript (k + 1) = .ok x ∧ s1.subscript (s.begin + k) = .ok x)
      ∧ (k = s.GetSize - 1 → s.begin + k = s1.end_) := by
  obtain ⟨s1, h1, h2, h3, h4, h5⟩ := SimpleVector.Erase_spec s k hinv hk
  have hl := SimpleVector.elems_length s hinv
  have hk1 : k < s.size_ := hk
  refine ⟨s1, ?_, h5, h2, h3, h4, ?_, ?_⟩
  · simpa [SimpleVector.begin] using h1
  · intro hnext
    have hnext1 : k + 1 < s.size_ := hnext
    refine ⟨s.elems[k + 1], ?_, ?_⟩
    · exact SimpleVector.subscript_of_elems s (k + 1) _ (List.getElem?_eq_getElem (by omega))
    · apply SimpleVector.subscript_of_elems
      rw [h5, SimpleVector.begin, Nat.zero_add, List.getElem?_eraseIdx_of_ge _ k k (Nat.le_refl k)]
      exact List.getElem?_eq_getElem (by omega)
  · intro hlast
    show 0 + k = s1.size_
    have hk2 : k = s.size_ - 1 := hlast
    omega

/-- C5 at `{1, 2, 3}` with spare capacity, `k = 1`. -/
theorem C5_Erase_elems_witness :
    ∃ s1 : SimpleVector Int,
      SimpleVector.Erase vec123spare 1 = .ok (vec123spare.begin + 1, s1)
      ∧ s1.elems = vec123spare.elems.eraseIdx 1
      ∧ s1.GetSize = vec123spare.GetSize - 1
      ∧ s1.GetCapacity = vec123spare.GetCapacity
      ∧ s1.extent = vec123spare.extent
      ∧ (1 + 1 < vec123spare.GetSize →
          ∃ x : Int, vec123spare.subscript (1 + 1) = .ok x
            ∧ s1.subscript (vec123spare.begin + 1) = .ok x)
      ∧ (1 = vec123spare.GetSize - 1 → vec123spare.begin + 1 = s1.end_) :=
  C5_Erase_elems vec123spare 1 (by decide) (by decide)

/-- C6: `PushBack(v)` followed by `PopBack()` returns with the prior size and the prior
elements, and with a capacity not below the prior one. -/
theorem C6_PushBack_PopBack {T : Type} (fresh : Nat → T) (s : SimpleVector T) (v : T)
    (hinv : s.Inv) (hfit : s.grownCapacity ≤ ALLOC_MAX) :
    ∃ s1 s2 : SimpleVector T,
      SimpleVector.PushBack fresh s v = .ok s1
      ∧ SimpleVector.PopBack s1 = .ok s2
      ∧ s2.GetSize = s.GetSize
      ∧ s2.elems = s.elems
      ∧ s.GetCapacity ≤ s2.GetCapacity := by
  obtain ⟨s1, h1, h2, h3, h4, h5⟩ := SimpleVector.PushBack_spec fresh s v hinv hfit
  have hinv1 : s1.Inv := SimpleVector.Inv_PushBack fresh s v s1 hinv h1
  obtain ⟨s2, g1, g2, g3, g4, g5⟩ := SimpleVector.PopBack_spec s1 hinv1 (by omega)
  refine ⟨s1, s2, h1, g1, ?_, ?_, ?_⟩
  · show s2.size_ = s.size_
    omega
  · rw [g5, h5, List.dropLast_concat]
  · show s.capacity_ ≤ s2.capacity_
    rw [g3, h3]
    have := SimpleVector.grownCapacity_gt s hinv.1
    have := hinv.1
    unfold SimpleVector.grownCapacity at *
    split <;> omega

/-- C6 at the full vector `{1, 2, 3}`, whose capacity grows from 3 to 6. -/
theorem C6_PushBack_PopBack_witness :
    ∃ s1 s2 : SimpleVector Int,
      SimpleVector.PushBack junk vec123 4 = .ok s1
      ∧ SimpleVector.PopBack s1 = .ok s2
      ∧ s2.GetSize = vec123.GetSize
      ∧ s2.elems = vec123.elems
      ∧ vec123.GetCapacity ≤ s2.GetCapacity :=
  C6_PushBack_PopBack junk vec123 4 (by decide) (by decide)

/-- C7: `At(i)` throws `out_of_range` exactly when `i ≥ size`, in particular at every
index of `[size, size + k)`; for `i < size` it returns the element `operator[](i)`
returns; the vector is the same after the call. -/
theorem C7_At_checked {T : Type} (s : SimpleVector T) (i : Nat) (hinv : s.Inv) :
    ((s.At i).1 = .error .out_of_range ↔ i ≥ s.GetSize)
    ∧ (∀ k j : Nat, j < k → (s.At (s.GetSize + j)).1 = .error .out_of_range)
    ∧ (i < s.GetSize → ∃ x : T, (s.At i).1 = .ok x ∧ s.subscript i = .ok x)
    ∧ (s.At i).2 = s := by
  have hsub : ∀ j : Nat, j < s.size_ → ∃ x : T, s.subscript j = .ok x := by
    intro j hj
    obtain ⟨x, hx⟩ := SimpleVector.elems_getElem_of_lt s hinv j hj
    exact ⟨x, SimpleVector.subscript_of_elems s j x hx⟩
  refine ⟨?_, ?_, ?_, ?_⟩
  · constructor
    · intro h
      by_contra hlt
      have hlt1 : i < s.size_ := by
        have : ¬ i ≥ s.size_ := hlt
        omega
      obtain ⟨x, hx⟩ := hsub i hlt1
      have hge : ¬ i ≥ s.size_ := by omega
      simp only [SimpleVector.At, if_neg hge] at h
      rw [show s.array_.subscript i = s.subscript i from rfl, hx] at h
      cases h
    · intro h
      have hge : i ≥ s.size_ := h
      simp only [SimpleVector.At, if_pos hge]
  · intro k j _
    have hge : s.GetSize + j ≥ s.size_ := Nat.le_add_right _ _
    simp only [SimpleVector.At, if_pos hge]
  · intro hlt
    have hlt1 : i < s.size_ := hlt
    obtain ⟨x, hx⟩ := hsub i hlt1
    have hge : ¬ i ≥ s.size_ := by omega
    refine ⟨x, ?_, hx⟩
    simp only [SimpleVector.At, if_neg hge]
    exact hx
  · unfold SimpleVector.At
    split <;> rfl

/-- C7 at `{1, 2, 3}` with spare capacity and index 3, the first one past the size. -/
theorem C7_At_checked_witness :
    ((vec123spare.At 3).1 = .error .out_of_range ↔ 3 ≥ vec123spare.GetSize)
    ∧ (∀ k j : Nat, j < k →
        (vec123spare.At (vec123spare.GetSize + j)).1 = .error .out_of_range)
    ∧ (3 < vec123spare.GetSize →
        ∃ x : Int, (vec123spare.At 3).1 = .ok x ∧ vec123spare.subscript 3 = .ok x)
    ∧ (vec123spare.At 3).2 = vec123spare :=
  C7_At_checked vec123spare 3 (by decide)

/-- C8: for `newSize > size`, `Resize(newSize)` returns with size `newSize`, the old
elements in `[0, size)` and the value `0` in `[size, newSize)`; the capacity stays when
`newSize ≤ capacity` and becomes `max(newSize, 2 * capacity)` otherwise. -/
theorem C8_Resize_grow {T : Type} [Zero T] (fresh : Nat → T) (s : SimpleVector T)
    (newSize : Nat) (hinv : s.Inv) (hgt : s.GetSize < newSize)
    (hfit : s.GetCapacity < newSize → max newSize (2 * s.GetCapacity) ≤ ALLOC_MAX) :
    ∃ s1 : SimpleVector T,
      SimpleVector.Resize fresh s newSize = .ok s1
      ∧ s1.GetSize = newSize
      ∧ s1.elems.take s.GetSize = s.elems
      ∧ (∀ i : Nat, s.GetSize ≤ i → i < newSize → s1.elems[i]? = some 0)
      ∧ (newSize ≤ s.GetCapacity → s1.GetCapacity = s.GetCapacity)
      ∧ (s.GetCapacity < newSize → s1.GetCapacity = max newSize (2 * s.GetCapacity)) := by
  have hl := SimpleVector.elems_length s hinv
  have hgt1 : s.size_ < newSize := hgt
  have key : ∀ s1 : SimpleVector T,
      s1.elems = s.elems ++ List.replicate (newSize - s.size_) (0 : T) →
      s1.elems.take s.GetSize = s.elems
      ∧ (∀ i : Nat, s.GetSize ≤ i → i < newSize → s1.elems[i]? = some 0) := by
    intro s1 he
    constructor
    · rw [he]; exact List.take_left' hl
    · intro i hi1 hi2
      have hi3 : s.size_ ≤ i := hi1
      rw [he, List.getElem?_append_right (by omega), List.getElem?_replicate]
      rw [if_pos (by omega)]
  by_cases hc : newSize ≤ s.capacity_
  · obtain ⟨s1, h1, h2, h3, _, h5⟩ := SimpleVector.Resize_within fresh s newSize hinv hgt1 hc
    refine ⟨s1, h1, h2, (key s1 h5).1, (key s1 h5).2, fun _ => h3, ?_⟩
    intro hlt
    have : s.capacity_ < newSize := hlt
    omega
  · have hc1 : s.capacity_ < newSize := by omega
    obtain ⟨s1, h1, h2, h3, _, h5⟩ :=
      SimpleVector.Resize_grow fresh s newSize hinv hc1 (hfit hc1)
    refine ⟨s1, h1, h2, (key s1 h5).1, (key s1 h5).2, ?_, fun _ => h3⟩
    intro hle
    exact absurd hle hc

/-- C8 at `{1, 2, 3}` with capacity 5 and `newSize = 7`, beyond the capacity. -/
theorem C8_Resize_grow_witness :
    ∃ s1 : SimpleVector Int,
      SimpleVector.Resize junk vec123spare 7 = .ok s1
      ∧ s1.GetSize = 7
      ∧ s1.elems.take vec123spare.GetSize = vec123spare.elems
      ∧ (∀ i : Nat, vec123spare.GetSize ≤ i → i < 7 → s1.elems[i]? = some 0)
      ∧ (7 ≤ vec123spare.GetCapacity → s1.GetCapacity = vec123spare.GetCapacity)
      ∧ (vec123spare.GetCapacity < 7 →
          s1.GetCapacity = max 7 (2 * vec123spare.GetCapacity)) :=
  C8_Resize_grow junk vec123spare 7 (by decide) (by decide) (by decide)

/-- C9: `Reserve(newCapacity)` returns with the same size and elements and with capacity
`max(capacity, newCapacity)`; it leaves the whole state as it was when
`newCapacity ≤ capacity`, and never lowers the capacity. -/
theorem C9_Reserve {T : Type} (fresh : Nat → T) (s : SimpleVector T) (newCapacity : Nat)
    (hinv : s.Inv) (hfit : s.GetCapacity < newCapacity → newCapacity ≤ ALLOC_MAX) :
    ∃ s1 : SimpleVector T,
      SimpleVector.Reserve fresh s newCapacity = .ok s1
      ∧ s1.GetSize = s.GetSize
      ∧ s1.elems = s.elems
      ∧ s1.GetCapacity = max s.GetCapacity newCapacity
      ∧ (newCapacity ≤ s.GetCapacity → s1 = s)
      ∧ s.GetCapacity ≤ s1.GetCapacity := by
  by_cases hc : newCapacity ≤ s.capacity_
  · refine ⟨s, SimpleVector.Reserve_noop fresh s newCapacity hc, rfl, rfl, ?_, fun _ => rfl,
      Nat.le_refl _⟩
    show s.capacity_ = max s.capacity_ newCapacity
    omega
  · have hc1 : s.capacity_ < newCapacity := by omega
    obtain ⟨s1, h1, h2, h3, _, h5⟩ :=
      SimpleVector.Reserve_grow fresh s newCapacity hinv hc1 (hfit hc1)
    refine ⟨s1, h1, h2, h5, ?_, ?_, ?_⟩
    · show s1.capacity_ = max s.capacity_ newCapacity
      omega
    · intro hle
      exact absurd hle hc
    · show s.capacity_ ≤ s1.capacity_
      omega

/-- C9 at `{1, 2, 3}` with capacity 5 and `newCapacity = 8`. -/
theorem C9_Reserve_witness :
    ∃ s1 : SimpleVector Int,
      SimpleVector.Reserve junk vec123spare 8 = .ok s1
      ∧ s1.GetSize = vec123spare.GetSize
      ∧ s1.elems = vec123spare.elems
      ∧ s1.GetCapacity = max vec123spare.GetCapacity 8
      ∧ (8 ≤ vec123spare.GetCapacity → s1 = vec123spare)
      ∧ vec123spare.GetCapacity ≤ s1.GetCapacity :=
  C9_Reserve junk vec123spare 8 (by decide) (by decide)

/-- C10: the copy `B` of a vector `A` has size and capacity equal to the size of `A` (not
its capacity) and the elements of `A`; after `B.PushBack(item)` the vector `A` is as it
was and `B` holds the elements of `A` followed by `item`; for `A = {1, 2, 3}` and
`item = 4` this gives `A == [1, 2, 3]` and `B == [1, 2, 3, 4]`. -/
theorem C10_copy_independent {T : Type} (fresh : Nat → T) (A : SimpleVector T) (item : T)
    (hinv : A.Inv) (hfit : 2 * A.GetSize ≤ ALLOC_MAX) :
    (∃ B : SimpleVector T,
      SimpleVector.ctor_copy fresh A = .ok B
      ∧ B.GetSize = A.GetSize ∧ B.GetCapacity = A.GetSize ∧ B.extent = A.GetSize
      ∧ B.elems = A.elems
      ∧ ∃ B1 : SimpleVector T,
          SimpleVector.PushBack fresh B item = .ok B1
          ∧ copy_then_PushBack fresh A item = .ok (A, B1)
          ∧ B1.elems = A.elems ++ [item])
    ∧ (∃ B1 : SimpleVector Int,
        copy_then_PushBack junk vec123 4 = .ok (vec123, B1)
        ∧ vec123.elems = [1, 2, 3] ∧ B1.elems = [1, 2, 3, 4]) := by
  constructor
  · obtain ⟨B, h1, h2, h3, h4, h5⟩ := SimpleVector.ctor_copy_spec fresh A hinv
    have hinvB : B.Inv := SimpleVector.Inv_ctor_copy fresh A B hinv h1
    have hfitB : B.grownCapacity ≤ ALLOC_MAX := by
      have hsz : 2 * A.size_ ≤ ALLOC_MAX := hfit
      unfold SimpleVector.grownCapacity
      rw [h2, h3]
      simp only [if_true]
      unfold ALLOC_MAX at *
      omega
    obtain ⟨B1, g1, _, _, _, g5⟩ := SimpleVector.PushBack_spec fresh B item hinvB hfitB
    refine ⟨B, h1, h2, h3, h4, h5, B1, g1, ?_, ?_⟩
    · simp only [copy_then_PushBack, h1, g1]
    · rw [g5, h5]
  · exact ⟨_, rfl, rfl, rfl⟩

/-- C10 at `A = {1, 2, 3}` with capacity 5 and `item = 4`. -/
theorem C10_copy_independent_witness :
    (∃ B : SimpleVector Int,
      SimpleVector.ctor_copy junk vec123spare = .ok B
      ∧ B.GetSize = vec123spare.GetSize ∧ B.GetCapacity = vec123spare.GetSize
      ∧ B.extent = vec123spare.GetSize
      ∧ B.elems = vec123spare.elems
      ∧ ∃ B1 : SimpleVector Int,
          SimpleVector.PushBack junk B 4 = .ok B1
          ∧ copy_then_PushBack junk vec123spare 4 = .ok (vec123spare, B1)
          ∧ B1.elems = vec123spare.elems ++ [4])
    ∧ (∃ B1 : SimpleVector Int,
        copy_then_PushBack junk vec123 4 = .ok (vec123, B1)
        ∧ vec123.elems = [1, 2, 3] ∧ B1.elems = [1, 2, 3, 4]) :=
  C10_copy_independent junk vec123spare 4 (by decide) (by decide)

/-- C11: move-constructing `B` from a vector `A` with `n` elements `xs` returns; `B` has size
and capacity `n` and elements `xs`, and `A` is left with size 0 and capacity 0, empty and
within the representation invariant; for `A = {1, 2, 3}` this gives `size(A) == 0`,
`size(B) == 3` and `B == [1, 2, 3]`. -/
theorem C11_move_construct {T : Type} (fresh : Nat → T) (A : SimpleVector T) (hinv : A.Inv) :
    (∃ B A1 : SimpleVector T,
      SimpleVector.ctor_move fresh A = .ok (B, A1)
      ∧ B.GetSize = A.GetSize ∧ B.GetCapacity = A.GetSize ∧ B.elems = A.elems
      ∧ A1.GetSize = 0 ∧ A1.GetCapacity = 0 ∧ A1.elems = [] ∧ A1.IsEmpty = true ∧ A1.Inv)
    ∧ (∃ B A1 : SimpleVector Int,
        SimpleVector.ctor_move junk vec123 = .ok (B, A1)
        ∧ A1.GetSize = 0 ∧ B.GetSize = 3 ∧ B.elems = [1, 2, 3]
        ∧ operator_eq B vec123 = .ok true) := by
  constructor
  · obtain ⟨B, h1, h2, h3, _, h5⟩ := SimpleVector.ctor_copy_spec fresh A hinv
    refine ⟨B, { A with capacity_ := 0, size_ := 0 }, ?_, h2, h3, h5, rfl, rfl, ?_, rfl,
      SimpleVector.Inv_moved_from A hinv⟩
    · rw [SimpleVector.ctor_move_eq, h1]; rfl
    · simp [SimpleVector.elems]
  · exact ⟨_, _, rfl, rfl, rfl, rfl, rfl⟩

/-- C11 at `A = {1, 2, 3}` with capacity 5. -/
theorem C11_move_construct_witness :
    (∃ B A1 : SimpleVector Int,
      SimpleVector.ctor_move junk vec123spare = .ok (B, A1)
      ∧ B.GetSize = vec123spare.GetSize ∧ B.GetCapacity = vec123spare.GetSize
      ∧ B.elems = vec123spare.elems
      ∧ A1.GetSize = 0 ∧ A1.GetCapacity = 0 ∧ A1.elems = [] ∧ A1.IsEmpty = true ∧ A1.Inv)
    ∧ (∃ B A1 : SimpleVector Int,
        SimpleVector.ctor_move junk vec123 = .ok (B, A1)
        ∧ A1.GetSize = 0 ∧ B.GetSize = 3 ∧ B.elems = [1, 2, 3]
        ∧ operator_eq B vec123 = .ok true) :=
  C11_move_construct junk vec123spare (by decide)

/-- C12 on the code: `operator==` runs `std::equal(lhs.begin(), lhs.end(), rhs.begin())`
and never compares the sizes.  For `lhs = {1, 2}` and `rhs = {1, 2, 3}`, of sizes 2 and 3,
it returns `true` and `operator!=` returns `false`; with the operands exchanged it reads
the cell behind the two-cell block of `{1, 2}`. -/
theorem C12_operator_eq_ignores_size :
    vec12.GetSize = 2 ∧ vec123.GetSize = 3
    ∧ vec12.elems = [1, 2] ∧ vec123.elems = [1, 2, 3]
    ∧ operator_eq vec12 vec123 = .ok true
    ∧ operator_ne vec12 vec123 = .ok false
    ∧ operator_eq vec123 vec12 = .error .out_of_bounds :=
  ⟨rfl, rfl, rfl, rfl, rfl, rfl, rfl⟩

/-- C13: `Clear()` sets the size to 0 and keeps the capacity `c`; when `c > 0` a following
`PushBack(v)` returns with capacity `c`, size 1 and the single element `v`. -/
theorem C13_Clear_PushBack {T : Type} (fresh : Nat → T) (s : SimpleVector T) (v : T)
    (hinv : s.Inv) :
    s.Clear.GetSize = 0 ∧ s.Clear.GetCapacity = s.GetCapacity
    ∧ (0 < s.GetCapacity →
        ∃ s1 : SimpleVector T, SimpleVector.PushBack fresh s.Clear v = .ok s1
          ∧ s1.GetCapacity = s.GetCapacity ∧ s1.GetSize = 1 ∧ s1.elems = [v]) := by
  refine ⟨rfl, rfl, ?_⟩
  intro hc
  have hc1 : 0 < s.capacity_ := hc
  have hinvc : s.Clear.Inv := ⟨Nat.zero_le _, hinv.2.1, hinv.2.2⟩
  have hg : s.Clear.grownCapacity = s.capacity_ :=
    SimpleVector.grownCapacity_spare s.Clear hc1
  have hfit : s.Clear.grownCapacity ≤ ALLOC_MAX := by
    obtain ⟨_, i2, i3⟩ := hinv
    rw [hg]; omega
  obtain ⟨s1, h1, h2, h3, _, h5⟩ := SimpleVector.PushBack_spec fresh s.Clear v hinvc hfit
  refine ⟨s1, h1, h3.trans hg, h2, ?_⟩
  rw [h5]
  simp [SimpleVector.elems, SimpleVector.Clear]

/-- C13 at `{1, 2, 3}` with capacity 5. -/
theorem C13_Clear_PushBack_witness :
    vec123spare.Clear.GetSize = 0 ∧ vec123spare.Clear.GetCapacity = vec123spare.GetCapacity
    ∧ (0 < vec123spare.GetCapacity →
        ∃ s1 : SimpleVector Int, SimpleVector.PushBack junk vec123spare.Clear 4 = .ok s1
          ∧ s1.GetCapacity = vec123spare.GetCapacity ∧ s1.GetSize = 1 ∧ s1.elems = [4]) :=
  C13_Clear_PushBack junk vec123spare 4 (by decide)

/-- C14: for `newSize ≤ size`, `Resize(newSize)` returns the very state that
`size - newSize` calls of `PopBack()` return: size `newSize`, the first `newSize`
elements, the same capacity and the same block. -/
theorem C14_Resize_shrink {T : Type} [Zero T] (fresh : Nat → T) (s : SimpleVector T)
    (newSize : Nat) (hinv : s.Inv) (hle : newSize ≤ s.GetSize) :
    ∃ s1 : SimpleVector T,
      SimpleVector.Resize fresh s newSize = .ok s1
      ∧ PopBackTimes (s.GetSize - newSize) s = .ok s1
      ∧ s1.GetSize = newSize
      ∧ s1.elems = s.elems.take newSize
      ∧ s1.GetCapacity = s.GetCapacity
      ∧ s1.array_ = s.array_ := by
  have hle1 : newSize ≤ s.size_ := hle
  refine ⟨{ s with size_ := newSize }, SimpleVector.Resize_shrink fresh s newSize hle1, ?_,
    rfl, ?_, rfl, rfl⟩
  · show PopBackTimes (s.size_ - newSize) s = _
    rw [PopBackTimes_eq (s.size_ - newSize) s hinv (Nat.sub_le _ _)]
    have : s.size_ - (s.size_ - newSize) = newSize := by omega
    rw [this]
  · simp [SimpleVector.elems, List.take_take, Nat.min_eq_left hle1]

/-- C14 at `{1, 2, 3}` with capacity 5 and `newSize = 1`. -/
theorem C14_Resize_shrink_witness :
    ∃ s1 : SimpleVector Int,
      SimpleVector.Resize junk vec123spare 1 = .ok s1
      ∧ PopBackTimes (vec123spare.GetSize - 1) vec123spare = .ok s1
      ∧ s1.GetSize = 1
      ∧ s1.elems = vec123spare.elems.take 1
      ∧ s1.GetCapacity = vec123spare.GetCapacity
      ∧ s1.array_ = vec123spare.array_ :=
  C14_Resize_shrink junk vec123spare 1 (by decide) (by decide)

/-- C15 on the code: the move constructor sets the counters of its source to 0 but never
releases or swaps the source's `array_`.  Moving from `{1, 2, 3}` gives the new vector a
block of exactly its capacity and leaves the source, a reachable vector, with capacity 0
while it still owns its block of 3 cells: its extent is not its capacity and its handle is
not empty.  The source `{1, 2, 3}` itself, built with no move, had extent equal to
capacity. -/
theorem C15_moved_from_keeps_block :
    SimpleVector.ctor_move junk vec123 = .ok (vec123, vec123moved)
    ∧ vec123.ExactExtent
    ∧ Reachable vec123moved
    ∧ vec123moved.GetCapacity = 0
    ∧ vec123moved.extent = 3
    ∧ vec123moved.array_.toBool = true
    ∧ ¬ vec123moved.ExactExtent
    ∧ ¬ (∀ s : SimpleVector Int, Reachable s → s.ExactExtent) :=
  have hr : Reachable vec123moved :=
    Reachable.ctor_move_source junk vec123 (vec123, vec123moved)
      (Reachable.ctor_init junk [1, 2, 3] vec123 rfl) rfl
  ⟨rfl, by decide, hr, rfl, rfl, rfl, by decide,
   fun hall => absurd (hall vec123moved hr) (by decide)⟩

/-- C16 on the code: `a` is `{1, 2, 7}` after `PopBack()` (elements `1, 2`, capacity 3, the
popped `7` still in its cell) and `b` is `{1, 2, 3}`; both are reachable, either comparison
reads allocated cells only, and `a == b` is `true` while `b == a` is `false`. -/
theorem C16_operator_eq_not_symmetric :
    Reachable vec12stale ∧ Reachable vec123
    ∧ vec12stale.GetSize ≤ vec123.extent ∧ vec123.GetSize ≤ vec12stale.extent
    ∧ operator_eq vec12stale vec123 = .ok true
    ∧ operator_eq vec123 vec12stale = .ok false :=
  ⟨Reachable.PopBack vec127 vec12stale (Reachable.ctor_init junk [1, 2, 7] vec127 rfl) rfl,
   Reachable.ctor_init junk [1, 2, 3] vec123 rfl,
   by decide, by decide, rfl, rfl⟩

/-- C17: `operator<(a, b)` returns, and returns `true` exactly when the elements of `a`
precede those of `b` in the lexicographic order, in which a proper prefix precedes the
longer sequence; `operator>=(a, b)` returns the negation; `[1, 2] < [1, 2, 3]` and
`[1, 2, 3] < [1, 3]`. -/
theorem C17_operator_lt_lexicographic {T : Type} [LinearOrder T] (a b : SimpleVector T)
    (ha : a.Inv) (hb : b.Inv) :
    (∃ r : Bool, operator_lt a b = .ok r
      ∧ (r = true ↔ List.Lex (· < ·) a.elems b.elems)
      ∧ ((∃ x t, b.elems = a.elems ++ x :: t) → r = true)
      ∧ operator_ge a b = .ok (!r))
    ∧ operator_lt vec12 vec123 = .ok true
    ∧ operator_lt vec123 vec13 = .ok true := by
  refine ⟨?_, rfl, rfl⟩
  obtain ⟨r, h1, h2⟩ := operator_lt_ok a b ha hb
  refine ⟨r, h1, h2, ?_, ?_⟩
  · rintro ⟨x, t, hx⟩
    rw [h2, hx]
    have hnil : List.Lex (· < ·) ([] : List T) (x :: t) := List.Lex.nil
    simpa using List.Lex.append_left (· < ·) hnil a.elems
  · simp only [operator_ge, h1]

/-- C17 at `a = {1, 2}` and `b = {1, 2, 3}`. -/
theorem C17_operator_lt_lexicographic_witness :
    (∃ r : Bool, operator_lt vec12 vec123 = .ok r
      ∧ (r = true ↔ List.Lex (· < ·) vec12.elems vec123.elems)
      ∧ ((∃ x t, vec123.elems = vec12.elems ++ x :: t) → r = true)
      ∧ operator_ge vec12 vec123 = .ok (!r))
    ∧ operator_lt vec12 vec123 = .ok true
    ∧ operator_lt vec123 vec13 = .ok true :=
  C17_operator_lt_lexicographic vec12 vec123 (by decide) (by decide)

/-- C18: `Release()` returns what `Get()` returned before it and leaves the handle empty
(`Get()` null, boolean check false); a handle created with count 0 owns nothing and one
created with a count above 0 owns a block of that many cells. -/
theorem C18_ArrayPtr_Release {T : Type} (fresh : Nat → T) (p : ArrayPtr T) (count : Nat)
    (hpos : 0 < count) (hfit : count ≤ ALLOC_MAX) :
    p.Release.1 = p.Get
    ∧ p.Release.2.Get = none
    ∧ p.Release.2.toBool = false
    ∧ (∃ a : ArrayPtr T, ArrayPtr.ctor_size fresh 0 = .ok a ∧ a.Get = none ∧ a.toBool = false)
    ∧ (∃ a : ArrayPtr T, ArrayPtr.ctor_size fresh count = .ok a
        ∧ a.Get ≠ none ∧ a.toBool = true ∧ a.cells.length = count) := by
  refine ⟨rfl, rfl, rfl, ⟨_, rfl, rfl, rfl⟩, ?_⟩
  refine ⟨_, ArrayPtr.alloc_ok fresh count (by omega) hfit, ?_, rfl, ?_⟩
  · simp [ArrayPtr.Get]
  · simp [ArrayPtr.cells]

/-- C18 at a handle owning the block `1, 2, 3` and at count 3. -/
theorem C18_ArrayPtr_Release_witness :
    vec123.array_.Release.1 = vec123.array_.Get
    ∧ vec123.array_.Release.2.Get = none
    ∧ vec123.array_.Release.2.toBool = false
    ∧ (∃ a : ArrayPtr Int, ArrayPtr.ctor_size junk 0 = .ok a ∧ a.Get = none
        ∧ a.toBool = false)
    ∧ (∃ a : ArrayPtr Int, ArrayPtr.ctor_size junk 3 = .ok a
        ∧ a.Get ≠ none ∧ a.toBool = true ∧ a.cells.length = 3) :=
  C18_ArrayPtr_Release junk vec123.array_ 3 (by decide) (by decide)

/-- C19: `Insert(begin() + k, v)` followed by `Erase` at the iterator `Insert` returned
restores the size and the elements; `Erase` returns the position of index `k`; the
capacity afterwards is not below the one before. -/
theorem C19_Insert_Erase {T : Type} (fresh : Nat → T) (s : SimpleVector T) (k : Nat) (v : T)
    (hinv : s.Inv) (hk : k ≤ s.GetSize) (hfit : s.grownCapacity ≤ ALLOC_MAX) :
    ∃ (r : Nat × SimpleVector T) (s2 : SimpleVector T),
      SimpleVector.Insert fresh s k v = .ok r
      ∧ SimpleVector.Erase r.2 r.1 = .ok (r.2.begin + k, s2)
      ∧ s2.GetSize = s.GetSize
      ∧ s2.elems = s.elems
      ∧ s.GetCapacity ≤ s2.GetCapacity := by
  have hk1 : k ≤ s.size_ := hk
  have hl := SimpleVector.elems_length s hinv
  obtain ⟨s1, h1, h2, h3, h4, h5⟩ := SimpleVector.Insert_spec fresh s k v hinv hk1 hfit
  have hinv1 : s1.Inv := SimpleVector.Inv_Insert fresh s k v (k, s1) hinv h1
  obtain ⟨s2, g1, g2, g3, _, g5⟩ := SimpleVector.Erase_spec s1 k hinv1 (by omega)
  refine ⟨(k, s1), s2, h1, ?_, ?_, ?_, ?_⟩
  · simpa [SimpleVector.begin] using g1
  · show s2.size_ = s.size_
    omega
  · rw [g5, h5]
    exact eraseIdx_insert_at s.elems k v (by omega)
  · show s.capacity_ ≤ s2.capacity_
    rw [g3, h3]
    have := SimpleVector.grownCapacity_gt s hinv.1
    have := hinv.1
    unfold SimpleVector.grownCapacity at *
    split <;> omega

/-- C19 at the full vector `{1, 2, 3}`, `k = 1`, `v = 9`. -/
theorem C19_Insert_Erase_witness :
    ∃ (r : Nat × SimpleVector Int) (s2 : SimpleVector Int),
      SimpleVector.Insert junk vec123 1 9 = .ok r
      ∧ SimpleVector.Erase r.2 r.1 = .ok (r.2.begin + 1, s2)
      ∧ s2.GetSize = vec123.GetSize
      ∧ s2.elems = vec123.elems
      ∧ vec123.GetCapacity ≤ s2.GetCapacity :=
  C19_Insert_Erase junk vec123 1 9 (by decide) (by decide) (by decide)

/-- C20: the vector constructed from the hint `Reserve(n)` has size 0 and capacity `n`;
after pushing `m ≤ n` values the capacity is still `n`, the size is `m` and the elements
are the pushed values in order. -/
theorem C20_Reserve_hint {T : Type} (fresh : Nat → T) (n : Nat) (vs : List T)
    (hfit : n ≤ ALLOC_MAX) (hm : vs.length ≤ n) :
    ∃ s0 s1 : SimpleVector T,
      SimpleVector.ctor_reserve fresh (Reserve n) = .ok s0
      ∧ s0.GetSize = 0 ∧ s0.GetCapacity = n
      ∧ PushBackAll fresh s0 vs = .ok s1
      ∧ s1.GetCapacity = n ∧ s1.GetSize = vs.length ∧ s1.elems = vs := by
  obtain ⟨s0, h1, h2, h3, _, h5, h6⟩ := ctor_reserve_hint_spec fresh n hfit
  obtain ⟨s1, g1, g2, g3, g4, _⟩ := PushBackAll_spare fresh vs s0 h6 (by omega)
  refine ⟨s0, s1, h1, h2, h3, g1, g3.trans h3, ?_, ?_⟩
  · show s1.size_ = vs.length
    omega
  · rw [g4, h5]; rfl

/-- C20 at `n = 5` and the pushes `7, 8, 9`. -/
theorem C20_Reserve_hint_witness :
    ∃ s0 s1 : SimpleVector Int,
      SimpleVector.ctor_reserve junk (Reserve 5) = .ok s0
      ∧ s0.GetSize = 0 ∧ s0.GetCapacity = 5
      ∧ PushBackAll junk s0 [7, 8, 9] = .ok s1
      ∧ s1.GetCapacity = 5 ∧ s1.GetSize = [7, 8, (9 : Int)].length ∧ s1.elems = [7, 8, 9] :=
  C20_Reserve_hint junk 5 [7, 8, 9] (by decide) (by decide)
